import Mathlib

/-!
Shallow embedding of the ClaudeQuant backtest core (src/core/types.py,
src/backtest/broker.py, src/backtest/engine.py, src/backtest/metrics.py).

Conventions of the embedding:
* Python floats holding money, prices and rates are modelled as exact
  rationals (ℚ); Python ints as ℤ (quantities) or ℕ (ids).
* pandas NaN results are modelled as `none` in `Option ℚ` where the code
  can produce NaN (std with ddof=1 on a length-1 series).
* `datetime.now()` / `uuid.uuid4()` id generation is modelled as drawing a
  fresh value from a monotone external counter (the "world clock") that is
  threaded through every call; each generated id consumes one tick.  The
  clock belongs to the outside world, so `BacktestEngine.reset` does not
  rewind it.
* Exceptions are modelled with `Except`/`Option`; a Python `raise` before
  any mutation returns the unchanged state together with the error.
* `math`/`numpy` irrational primitives (float `**` and `sqrt`) are
  modelled as function parameters (`powf`, `sqrtf`); theorems that need a
  property of them (e.g. `powf 1 e = 1`, `sqrtf 0 = 0`) take it as an
  explicit hypothesis, true of the IEEE functions.
-/

/-- src/core/types.py `OrderSide`. -/
inductive OrderSide where
  | BUY
  | SELL
deriving DecidableEq

/-- src/core/types.py `OrderStatus`. -/
inductive OrderStatus where
  | PENDING
  | FILLED
  | CANCELLED
  | REJECTED
deriving DecidableEq

/-- src/core/types.py `SignalAction`. -/
inductive SignalAction where
  | BUY
  | SELL
  | HOLD
deriving DecidableEq

/-- src/core/types.py `Order` (timestamps and metadata omitted; the string
`order_id` generated from clock+uuid is modelled as the ℕ drawn from the
world clock). -/
structure Order where
  order_id : ℕ
  symbol : String
  side : OrderSide
  quantity : ℤ
  price : ℚ
  status : OrderStatus
  filled_quantity : ℤ
  filled_price : ℚ
  commission : ℚ
deriving DecidableEq

/-- src/core/types.py `Order.filled_amount`. -/
def Order.filled_amount (o : Order) : ℚ :=
  (o.filled_quantity : ℚ) * o.filled_price

/-- src/core/types.py `Trade` (timestamp and metadata omitted). -/
structure Trade where
  trade_id : ℕ
  order_id : ℕ
  symbol : String
  side : OrderSide
  quantity : ℤ
  price : ℚ
  commission : ℚ
deriving DecidableEq

/-- src/core/types.py `Position` (last_updated timestamp omitted). -/
structure Position where
  symbol : String
  quantity : ℤ
  avg_cost : ℚ
  current_price : ℚ
deriving DecidableEq

/-- src/core/types.py `Position.market_value`. -/
def Position.market_value (p : Position) : ℚ :=
  (p.quantity : ℚ) * p.current_price

/-- src/core/types.py `Position.cost_basis`. -/
def Position.cost_basis (p : Position) : ℚ :=
  (p.quantity : ℚ) * p.avg_cost

/-- src/core/types.py `Position.unrealized_pnl`. -/
def Position.unrealized_pnl (p : Position) : ℚ :=
  p.market_value - p.cost_basis

/-- src/core/types.py `Position.update_price`. -/
def Position.update_price (p : Position) (price : ℚ) : Position :=
  { p with current_price := price }

/-- src/core/types.py `Position.add`:
`total_cost = cost_basis + quantity*price; self.quantity += quantity;
avg_cost = total_cost / self.quantity if self.quantity > 0 else 0.0`. -/
def Position.add (p : Position) (quantity : ℤ) (price : ℚ) : Position :=
  let total_cost := p.cost_basis + (quantity : ℚ) * price
  let q' := p.quantity + quantity
  { p with
    quantity := q'
    avg_cost := if q' > 0 then total_cost / (q' : ℚ) else 0 }

/-- src/core/types.py `Position.reduce`: raises ValueError (modelled as
`none`) when `quantity > self.quantity`, otherwise returns the updated
position and the realized P&L `quantity * (current_price - avg_cost)`. -/
def Position.reduce (p : Position) (quantity : ℤ) : Option (Position × ℚ) :=
  if quantity > p.quantity then
    none
  else
    some ({ p with quantity := p.quantity - quantity },
          (quantity : ℚ) * (p.current_price - p.avg_cost))

/-- src/core/constants.py `DEFAULT_COMMISSION_RATE = 0.0003`. -/
def DEFAULT_COMMISSION_RATE : ℚ := 3 / 10000

/-- src/core/constants.py `DEFAULT_MIN_COMMISSION = 5.0`. -/
def DEFAULT_MIN_COMMISSION : ℚ := 5

/-- src/core/constants.py `DEFAULT_SLIPPAGE = 0.0001`. -/
def DEFAULT_SLIPPAGE : ℚ := 1 / 10000

/-- src/core/constants.py `DEFAULT_STAMP_TAX = 0.001`. -/
def DEFAULT_STAMP_TAX : ℚ := 1 / 1000

/-- src/backtest/broker.py `Broker` state. -/
structure Broker where
  initial_capital : ℚ
  cash : ℚ
  commission_rate : ℚ
  min_commission : ℚ
  stamp_tax : ℚ
  slippage : ℚ
  orders : List Order
  trades : List Trade
deriving DecidableEq

/-- src/backtest/broker.py `Broker.__init__`. -/
def mkBroker (initial_capital commission_rate min_commission stamp_tax slippage : ℚ) :
    Broker :=
  { initial_capital := initial_capital
    cash := initial_capital
    commission_rate := commission_rate
    min_commission := min_commission
    stamp_tax := stamp_tax
    slippage := slippage
    orders := []
    trades := [] }

/-- src/backtest/broker.py `Broker._calculate_commission`:
`max(quantity*price*commission_rate, min_commission)` (the `side`
parameter is unused by the Python body and omitted here). -/
def Broker.calculate_commission (b : Broker) (quantity : ℤ) (price : ℚ) : ℚ :=
  max ((quantity : ℚ) * price * b.commission_rate) b.min_commission

/-- src/backtest/broker.py `Broker._calculate_buy_cost`. -/
def Broker.calculate_buy_cost (b : Broker) (quantity : ℤ) (price : ℚ) : ℚ :=
  (quantity : ℚ) * price + b.calculate_commission quantity price

/-- Errors raised by `Broker.submit_order` / `Broker.fill_order`.  An
`InsufficientFundsError` is raised after the order object was created and
marked REJECTED; the exception carries that (unrecorded) order object. -/
inductive BrokerErr where
  | invalidOrder
  | insufficientFunds (rejected : Order)
deriving DecidableEq

/-- src/backtest/broker.py `Broker.submit_order`.  Returns the advanced
world clock, the broker state and the result.  Validation errors are
raised before the order id is generated (clock unchanged); the
insufficient-funds error is raised after id generation (clock advanced)
and, crucially, before `self.orders.append(order)`, so the rejected order
is never recorded in `orders`. -/
def Broker.submit_order (b : Broker) (w : ℕ) (symbol : String) (side : OrderSide)
    (quantity : ℤ) (price : ℚ) : ℕ × Broker × Except BrokerErr Order :=
  if quantity ≤ 0 then
    (w, b, .error .invalidOrder)
  else if price ≤ 0 then
    (w, b, .error .invalidOrder)
  else
    let order : Order :=
      { order_id := w, symbol := symbol, side := side, quantity := quantity
        price := price, status := .PENDING
        filled_quantity := 0, filled_price := 0, commission := 0 }
    if side = OrderSide.BUY ∧ b.calculate_buy_cost quantity price > b.cash then
      (w + 1, b, .error (.insufficientFunds { order with status := .REJECTED }))
    else
      (w + 1, { b with orders := b.orders ++ [order] }, .ok order)

/-- src/backtest/broker.py `Broker.fill_order`.  The Python code mutates
the order object in place, which aliases the entry in `self.orders`; this
is modelled by replacing the entry with the matching `order_id`. -/
def Broker.fill_order (b : Broker) (w : ℕ) (order : Order) (fill_price : Option ℚ) :
    ℕ × Broker × Except BrokerErr (Order × Trade) :=
  if order.status ≠ OrderStatus.PENDING then
    (w, b, .error .invalidOrder)
  else
    let fp := fill_price.getD order.price
    let actual_price :=
      if order.side = OrderSide.BUY then fp * (1 + b.slippage)
      else fp * (1 - b.slippage)
    let commission := b.calculate_commission order.quantity actual_price
    let filled : Order :=
      { order with
        filled_quantity := order.quantity
        filled_price := actual_price
        commission := commission
        status := .FILLED }
    let cash' :=
      if order.side = OrderSide.BUY then
        b.cash - (filled.filled_amount + commission)
      else
        b.cash + (filled.filled_amount - commission - filled.filled_amount * b.stamp_tax)
    let trade : Trade :=
      { trade_id := w, order_id := order.order_id, symbol := order.symbol
        side := order.side, quantity := filled.filled_quantity
        price := actual_price, commission := commission }
    (w + 1,
     { b with
       cash := cash'
       orders := b.orders.map fun o =>
         if o.order_id = order.order_id then filled else o
       trades := b.trades ++ [trade] },
     .ok (filled, trade))

/-- src/core/types.py `Signal` (timestamp, reason, confidence, metadata
omitted: the engine only reads action, symbol, price, quantity). -/
structure Signal where
  action : SignalAction
  symbol : String
  price : ℚ
  quantity : ℤ
deriving DecidableEq

/-- One row of the engine's input DataFrame; the run loop reads only
`bar['date']` and `bar['close']`. -/
structure Bar where
  date : ℕ
  close : ℚ
deriving DecidableEq

/-- src/utils/config.py backtest defaults read by `get_config()`:
`get_initial_capital`, `get_commission_rate`, `get_min_commission`,
`get_slippage`. -/
structure Config where
  initial_capital : ℚ
  commission_rate : ℚ
  min_commission : ℚ
  slippage : ℚ
deriving DecidableEq

/-- Python `arg or default` for an optional float argument: `None` and the
falsy values `0`/`0.0` are both replaced by the default. -/
def pyOr (arg : Option ℚ) (d : ℚ) : ℚ :=
  match arg with
  | none => d
  | some v => if v = 0 then d else v

/-- src/backtest/engine.py `BacktestEngine` state.  The position dict is
an insertion-ordered association list, like a Python dict. -/
structure Engine where
  initial_capital : ℚ
  commission_rate : ℚ
  min_commission : ℚ
  slippage : ℚ
  broker : Broker
  positions : List (String × Position)
  portfolio_values : List ℚ
  dates : List ℕ
deriving DecidableEq

/-- src/backtest/engine.py `BacktestEngine.__init__`: each argument is
combined with the config default using Python `or` before being passed to
the `Broker` constructor (which receives the module-level default stamp
tax). -/
def mkEngine (initial_capital commission_rate min_commission slippage : Option ℚ)
    (config : Config) : Engine :=
  let ic := pyOr initial_capital config.initial_capital
  let cr := pyOr commission_rate config.commission_rate
  let mc := pyOr min_commission config.min_commission
  let sl := pyOr slippage config.slippage
  { initial_capital := ic
    commission_rate := cr
    min_commission := mc
    slippage := sl
    broker := mkBroker ic cr mc DEFAULT_STAMP_TAX sl
    positions := []
    portfolio_values := []
    dates := [] }

/-- `self.positions[symbol]` lookup (`symbol in self.positions`). -/
def lookupPos : List (String × Position) → String → Option Position
  | [], _ => none
  | sp :: rest, sym => if sp.1 = sym then some sp.2 else lookupPos rest sym

/-- `self.positions[symbol] = pos`: replace the existing binding in place
if the key exists, append otherwise (Python dict insertion order). -/
def setPos : List (String × Position) → String → Position → List (String × Position)
  | [], sym, pos => [(sym, pos)]
  | sp :: rest, sym, pos =>
    if sp.1 = sym then (sym, pos) :: rest else sp :: setPos rest sym pos

/-- src/backtest/engine.py `BacktestEngine._process_signal`.  All broker
exceptions inside the try blocks are caught and logged, keeping whatever
state was mutated before the raise. -/
def Engine.process_signal (e : Engine) (w : ℕ) (signal : Signal) (bar : Bar) :
    ℕ × Engine :=
  let symbol := signal.symbol
  match signal.action with
  | .BUY =>
    match e.broker.submit_order w symbol .BUY signal.quantity signal.price with
    | (w', b', .error _) => (w', { e with broker := b' })
    | (w', b', .ok order) =>
      match b'.fill_order w' order (some bar.close) with
      | (w'', b'', .error _) => (w'', { e with broker := b'' })
      | (w'', b'', .ok (_, trade)) =>
        let pos0 :=
          match lookupPos e.positions symbol with
          | none =>
            { symbol := symbol, quantity := 0, avg_cost := 0
              current_price := bar.close : Position }
          | some p => p
        let pos1 := pos0.add trade.quantity trade.price
        (w'', { e with broker := b'', positions := setPos e.positions symbol pos1 })
  | .SELL =>
    match lookupPos e.positions symbol with
    | none => (w, e)
    | some pos =>
      if pos.quantity = 0 then (w, e)
      else
        let sell_quantity := min signal.quantity pos.quantity
        match e.broker.submit_order w symbol .SELL sell_quantity signal.price with
        | (w', b', .error _) => (w', { e with broker := b' })
        | (w', b', .ok order) =>
          match b'.fill_order w' order (some bar.close) with
          | (w'', b'', .error _) => (w'', { e with broker := b'' })
          | (w'', b'', .ok (_, trade)) =>
            match pos.reduce trade.quantity with
            | none => (w'', { e with broker := b'' })
            | some (pos', _) =>
              (w'', { e with broker := b'',
                             positions := setPos e.positions symbol pos' })
  | .HOLD => (w, e)

/-- src/backtest/engine.py `BacktestEngine._calculate_portfolio_value`. -/
def Engine.portfolio_value (e : Engine) : ℚ :=
  e.broker.cash + (e.positions.map fun sp => sp.2.market_value).sum

/-- One iteration of the `for idx in range(len(data))` loop in
`BacktestEngine.run`: mark the run symbol's position to the close, hand
the bar to the strategy (whose decision is the pre-supplied
`Option Signal`), process the signal, and record the portfolio value and
date. -/
def Engine.step (e : Engine) (w : ℕ) (sym : String) (bar : Bar)
    (sig : Option Signal) : ℕ × Engine :=
  let e1 :=
    match lookupPos e.positions sym with
    | some p => { e with positions := setPos e.positions sym (p.update_price bar.close) }
    | none => e
  let we2 :=
    match sig with
    | some signal => e1.process_signal w signal bar
    | none => (w, e1)
  let e2 := we2.2
  (we2.1,
   { e2 with
     portfolio_values := e2.portfolio_values ++ [e2.portfolio_value]
     dates := e2.dates ++ [bar.date] })

/-- The whole event loop of `BacktestEngine.run`, over the list of bars
paired with the signal the strategy emits on each bar.  A strategy is an
arbitrary external signal source, so any trace it can produce is some
such list. -/
def Engine.runLoop (e : Engine) (w : ℕ) (sym : String) :
    List (Bar × Option Signal) → ℕ × Engine
  | [] => (w, e)
  | (bar, sig) :: rest =>
    let we' := e.step w sym bar sig
    we'.2.runLoop we'.1 sym rest

/-- `portfolio_series.pct_change().fillna(0)`: first element 0, then
`v_t / v_{t-1} - 1` (ℚ division by zero yields 0, standing in for the
NaN/inf pandas produces when a previous value is 0). -/
def pctChange : List ℚ → List ℚ
  | [] => []
  | v :: rest =>
    let rec aux : ℚ → List ℚ → List ℚ
      | _, [] => []
      | prev, x :: xs => ((x - prev) / prev) :: aux x xs
    0 :: aux v rest

/-- src/core/types.py `BacktestResult`, restricted to the fields the
engine computes from the run (strategy name, date strings, benchmark,
metadata omitted; the metrics map is a pure function of
`portfolio_values` and `returns` and is modelled separately by the
metrics functions below). -/
structure BacktestResult where
  symbol : String
  initial_capital : ℚ
  final_capital : ℚ
  portfolio_values : List ℚ
  returns : List ℚ
  orders : List Order
  trades : List Trade
deriving DecidableEq

/-- src/backtest/engine.py `BacktestEngine.run` (+ `_generate_result`):
raises `BacktestError` on empty data, otherwise runs the loop and
assembles the result. -/
def Engine.run (e : Engine) (w : ℕ) (sym : String)
    (pairs : List (Bar × Option Signal)) : ℕ × Engine × Except Unit BacktestResult :=
  if pairs = [] then
    (w, e, .error ())
  else
    let we' := e.runLoop w sym pairs
    let e' := we'.2
    (we'.1, e',
     .ok { symbol := sym
           initial_capital := e.initial_capital
           final_capital := e'.portfolio_values.getLastD e.initial_capital
           portfolio_values := e'.portfolio_values
           returns := pctChange e'.portfolio_values
           orders := e'.broker.orders
           trades := e'.broker.trades })

/-- src/backtest/engine.py `BacktestEngine.reset`: fresh broker from the
stored parameters, empty positions and series.  The world clock is not
part of the engine and is untouched. -/
def Engine.reset (e : Engine) : Engine :=
  { e with
    broker := mkBroker e.initial_capital e.commission_rate e.min_commission
      DEFAULT_STAMP_TAX e.slippage
    positions := []
    portfolio_values := []
    dates := [] }

/-- src/core/constants.py `TRADING_DAYS_PER_YEAR = 252`. -/
def TRADING_DAYS_PER_YEAR : ℚ := 252

/-- src/core/constants.py `RISK_FREE_RATE = 0.03`. -/
def RISK_FREE_RATE : ℚ := 3 / 100

/-- pandas `Series.mean()` (only applied to non-empty series by the
metrics code). -/
def seriesMean (xs : List ℚ) : ℚ :=
  xs.sum / (xs.length : ℚ)

/-- pandas `Series.var()` with the default `ddof=1`: NaN (`none`) when the
series has fewer than two elements. -/
def seriesVar (xs : List ℚ) : Option ℚ :=
  if xs.length ≤ 1 then none
  else some ((xs.map fun x => (x - seriesMean xs) ^ 2).sum / ((xs.length : ℚ) - 1))

/-- pandas `Series.std()` (`ddof=1`), with the square root supplied as the
abstract float primitive `sqrtf`. -/
def seriesStd (sqrtf : ℚ → ℚ) (xs : List ℚ) : Option ℚ :=
  (seriesVar xs).map sqrtf

/-- src/backtest/metrics.py `MetricsCalculator.total_return`. -/
def totalReturn (vs : List ℚ) : ℚ :=
  if vs = [] then 0
  else
    let initial := vs.headD 0
    let final := vs.getLastD 0
    if initial = 0 then 0
    else (final - initial) / initial

/-- src/backtest/metrics.py `MetricsCalculator.annual_return`, with the
float power primitive supplied as `powf`. -/
def annualReturn (powf : ℚ → ℚ → ℚ) (vs : List ℚ) : ℚ :=
  if vs = [] then 0
  else powf (1 + totalReturn vs) (TRADING_DAYS_PER_YEAR / (vs.length : ℚ)) - 1

/-- src/backtest/metrics.py `MetricsCalculator.volatility` (with the
default `annualized=True`, as the engine calls it). -/
def volatility (sqrtf : ℚ → ℚ) (rs : List ℚ) : Option ℚ :=
  if rs = [] then some 0
  else (seriesStd sqrtf rs).map fun v => v * sqrtf TRADING_DAYS_PER_YEAR

/-- `cummax` continuation: running maximum given the maximum so far. -/
def cummaxFrom (m : ℚ) : List ℚ → List ℚ
  | [] => []
  | x :: xs => max m x :: cummaxFrom (max m x) xs

/-- pandas `Series.cummax()`. -/
def cummax : List ℚ → List ℚ
  | [] => []
  | v :: xs => v :: cummaxFrom v xs

/-- pandas `Series.min()` of a non-empty series (the `[]` case is dead
code behind the emptiness guard). -/
def listMin : List ℚ → ℚ
  | [] => 0
  | x :: xs => xs.foldl min x

/-- Maximum of a non-empty list, used to state the spec's
`max over t` drawdown formula. -/
def listMax : List ℚ → ℚ
  | [] => 0
  | x :: xs => xs.foldl max x

/-- src/backtest/metrics.py `MetricsCalculator.max_drawdown`:
`abs(((V - V.cummax()) / V.cummax()).min())`. -/
def maxDrawdown (vs : List ℚ) : ℚ :=
  if vs = [] then 0
  else |listMin (List.zipWith (fun v m => (v - m) / m) vs (cummax vs))|

/-- src/backtest/metrics.py `MetricsCalculator.sharpe_ratio`.  A NaN
standard deviation (length-1 series) fails the `std == 0` guard and
propagates. -/
def sharpe (sqrtf : ℚ → ℚ) (rs : List ℚ) (risk_free : ℚ) : Option ℚ :=
  if rs = [] then some 0
  else
    match seriesStd sqrtf rs with
    | none => none
    | some s =>
      if s = 0 then some 0
      else some ((seriesMean rs - risk_free / TRADING_DAYS_PER_YEAR) / s
                 * sqrtf TRADING_DAYS_PER_YEAR)

/-- src/backtest/metrics.py `MetricsCalculator.sortino_ratio`. -/
def sortino (sqrtf : ℚ → ℚ) (rs : List ℚ) (risk_free : ℚ) : Option ℚ :=
  if rs = [] then some 0
  else
    let downside := rs.filter fun r => r < 0
    if downside = [] then some 0
    else
      match seriesStd sqrtf downside with
      | none => none
      | some ds =>
        if ds = 0 then some 0
        else some ((seriesMean rs - risk_free / TRADING_DAYS_PER_YEAR) / ds
                   * sqrtf TRADING_DAYS_PER_YEAR)

/-- src/backtest/metrics.py `MetricsCalculator.calmar_ratio`. -/
def calmar (powf : ℚ → ℚ → ℚ) (vs : List ℚ) : ℚ :=
  let annual_ret := annualReturn powf vs
  let max_dd := maxDrawdown vs
  if max_dd = 0 then 0
  else annual_ret / max_dd

/-- A concrete PENDING BUY order used to witness broker-level theorems. -/
def wOrder : Order :=
  { order_id := 7, symbol := "SH600000", side := .BUY, quantity := 100
    price := 10, status := .PENDING
    filled_quantity := 0, filled_price := 0, commission := 0 }

/-- The spec's scenario broker: capital 100000, commission 0.0003, minimum
commission 5, zero slippage. -/
def wBroker : Broker := mkBroker 100000 DEFAULT_COMMISSION_RATE 5 DEFAULT_STAMP_TAX 0

/-- C1: filling a PENDING BUY order at fill price `fp` charges cash by
`q*p + commission` with effective price `p = fp*(1+slippage)` and
`commission = max(q*p*commission_rate, min_commission)` (no stamp tax
term); filling a PENDING SELL order credits cash by
`q*p - commission - q*p*stamp_tax` with `p = fp*(1-slippage)`; the
recorded commission is at least `min_commission`. -/
theorem C1_fill_order_cash (b : Broker) (w : ℕ) (o : Order) (fp : ℚ)
    (hpend : o.status = OrderStatus.PENDING) :
    (o.side = OrderSide.BUY →
      (b.fill_order w o (some fp)).2.1.cash =
        b.cash - ((o.quantity : ℚ) * (fp * (1 + b.slippage)) +
          max ((o.quantity : ℚ) * (fp * (1 + b.slippage)) * b.commission_rate)
            b.min_commission)) ∧
    (o.side = OrderSide.SELL →
      (b.fill_order w o (some fp)).2.1.cash =
        b.cash + ((o.quantity : ℚ) * (fp * (1 - b.slippage)) -
          max ((o.quantity : ℚ) * (fp * (1 - b.slippage)) * b.commission_rate)
            b.min_commission -
          (o.quantity : ℚ) * (fp * (1 - b.slippage)) * b.stamp_tax)) ∧
    (∀ o' t, (b.fill_order w o (some fp)).2.2 = .ok (o', t) →
      b.min_commission ≤ t.commission) := by
  refine ⟨fun hside => ?_, fun hside => ?_, fun o' t hok => ?_⟩
  · simp [Broker.fill_order, hpend, hside, Broker.calculate_commission,
      Order.filled_amount]
  · cases hs : o.side with
    | BUY => rw [hside] at hs; cases hs
    | SELL =>
      simp [Broker.fill_order, hpend, hs, Broker.calculate_commission,
        Order.filled_amount]
  · rw [Broker.fill_order] at hok
    simp only [hpend, ne_eq, not_true_eq_false, if_false, ite_false,
      reduceIte] at hok
    cases hok' : hok
    simp_all [Broker.calculate_commission]

/-- C1 witness: the spec scenario — capital 100000, BUY 100 @ 10 with zero
slippage leaves cash 98995. -/
theorem C1_fill_order_cash_witness :
    wOrder.status = OrderStatus.PENDING ∧
    (wBroker.fill_order 3 wOrder (some 10)).2.1.cash = 98995 := by
  constructor
  · rfl
  · have h := (C1_fill_order_cash wBroker 3 wOrder 10 rfl).1 rfl
    rw [h]
    norm_num [wBroker, mkBroker, wOrder, DEFAULT_COMMISSION_RATE]

/-- The spec's insufficient-funds scenario broker: capital 100. -/
def wBroker100 : Broker := mkBroker 100 DEFAULT_COMMISSION_RATE 5 DEFAULT_STAMP_TAX 0

/-- C3 counterexample: capital 100, BUY 100 @ 10 fails with
InsufficientFunds and the order object is marked REJECTED, but — contrary
to the claim — the rejected order is NOT recorded in the broker's order
history (`raise` happens before `self.orders.append(order)`): the order
list stays empty.  Cash is unchanged at 100. -/
theorem C3_counterexample :
    (wBroker100.submit_order 0 "SH600000" .BUY 100 10).2.2 =
      .error (.insufficientFunds
        { order_id := 0, symbol := "SH600000", side := .BUY, quantity := 100
          price := 10, status := .REJECTED
          filled_quantity := 0, filled_price := 0, commission := 0 }) ∧
    (wBroker100.submit_order 0 "SH600000" .BUY 100 10).2.1.orders = [] ∧
    (wBroker100.submit_order 0 "SH600000" .BUY 100 10).2.1.cash = 100 := by
  refine ⟨?_, ?_, ?_⟩ <;>
    norm_num [wBroker100, mkBroker, Broker.submit_order, Broker.calculate_buy_cost,
      Broker.calculate_commission, DEFAULT_COMMISSION_RATE]

/-- C3 amended: a BUY submission whose total cost (notional plus
commission, clamped below by min_commission) exceeds current cash fails
with InsufficientFunds carrying the order marked REJECTED, and the broker
is unchanged — in particular cash is unchanged and the rejected order is
NOT appended to the order history; a submission with quantity ≤ 0 or
price ≤ 0 fails with InvalidOrder, also leaving the broker unchanged. -/
theorem C3_submit_order_amended (b : Broker) (w : ℕ) (sym : String)
    (side : OrderSide) (q : ℤ) (p : ℚ) :
    (0 < q → 0 < p → b.cash < b.calculate_buy_cost q p →
      b.submit_order w sym .BUY q p =
        (w + 1, b, .error (.insufficientFunds
          { order_id := w, symbol := sym, side := .BUY, quantity := q
            price := p, status := .REJECTED
            filled_quantity := 0, filled_price := 0, commission := 0 }))) ∧
    (q ≤ 0 ∨ p ≤ 0 →
      b.submit_order w sym side q p = (w, b, .error .invalidOrder)) := by
  constructor
  · intro hq hp hc
    simp [Broker.submit_order, not_le.mpr hq, not_le.mpr hp, hc]
  · rintro (hq | hp)
    · simp [Broker.submit_order, hq]
    · rcases le_or_lt q 0 with hq | hq
      · simp [Broker.submit_order, hq]
      · simp [Broker.submit_order, not_le.mpr hq, hp]

/-- C3 witness: the amended theorem applied to the spec scenario
(capital 100, BUY 100 @ 10) and to an invalid quantity. -/
theorem C3_submit_order_amended_witness :
    wBroker100.cash < wBroker100.calculate_buy_cost 100 10 ∧
    wBroker100.submit_order 0 "SH600000" .BUY 100 10 =
      (1, wBroker100, .error (.insufficientFunds
        { order_id := 0, symbol := "SH600000", side := .BUY, quantity := 100
          price := 10, status := .REJECTED
          filled_quantity := 0, filled_price := 0, commission := 0 })) ∧
    wBroker100.submit_order 9 "SH600000" .SELL (-3) 10 =
      (9, wBroker100, .error .invalidOrder) := by
  have hc : wBroker100.cash < wBroker100.calculate_buy_cost 100 10 := by
    norm_num [wBroker100, mkBroker, Broker.calculate_buy_cost,
      Broker.calculate_commission, DEFAULT_COMMISSION_RATE]
  refine ⟨hc, ?_, ?_⟩
  · exact (C3_submit_order_amended wBroker100 0 "SH600000" .BUY 100 10).1
      (by norm_num) (by norm_num) hc
  · exact (C3_submit_order_amended wBroker100 9 "SH600000" .SELL (-3) 10).2
      (Or.inl (by norm_num))

/-- One call against a `Position`: `add(q, price)`, `reduce(q)` (a failed
reduce raises and leaves the position untouched), or `update_price(p)`. -/
inductive PosOp where
  | addOp (quantity : ℤ) (price : ℚ)
  | reduceOp (quantity : ℤ)
  | priceOp (price : ℚ)

/-- Apply one position operation; a raising `reduce` leaves the position
exactly as it was (the ValueError is raised before any field mutation). -/
def applyPosOp (p : Position) : PosOp → Position
  | .addOp q pr => p.add q pr
  | .reduceOp q =>
    match p.reduce q with
    | none => p
    | some (p', _) => p'
  | .priceOp pr => p.update_price pr

/-- Apply a sequence of position operations. -/
def applyPosOps (p : Position) (ops : List PosOp) : Position :=
  ops.foldl applyPosOp p

/-- `add` is only ever called with a non-negative share count (the data
model requires requested quantities to be positive). -/
def addQtyNonneg : PosOp → Prop
  | .addOp q _ => 0 ≤ q
  | .reduceOp _ => True
  | .priceOp _ => True

/-- C4: a reduce of more shares than held fails and leaves the position
(quantity, average cost, current price) unchanged; consequently, starting
from a non-negative quantity, no sequence of add/reduce/update_price
calls (with adds of non-negative size, per the data model) ever drives
the quantity negative. -/
theorem C4_reduce_guard_nonneg (p : Position) (q : ℤ) (ops : List PosOp) :
    (p.quantity < q → p.reduce q = none ∧ applyPosOp p (.reduceOp q) = p) ∧
    (0 ≤ p.quantity → (∀ op ∈ ops, addQtyNonneg op) →
      0 ≤ (applyPosOps p ops).quantity) := by
  constructor
  · intro hq
    have hred : p.reduce q = none := by simp [Position.reduce, hq]
    exact ⟨hred, by simp [applyPosOp, hred]⟩
  · intro hp hops
    induction ops generalizing p with
    | nil => simpa [applyPosOps] using hp
    | cons op rest ih =>
      have hop : addQtyNonneg op := hops op (List.mem_cons_self op rest)
      have hrest : ∀ op' ∈ rest, addQtyNonneg op' := fun op' h =>
        hops op' (List.mem_cons_of_mem op h)
      have hstep : 0 ≤ (applyPosOp p op).quantity := by
        cases op with
        | addOp aq apr =>
          simp only [applyPosOp, Position.add]
          have : (0 : ℤ) ≤ aq := hop
          omega
        | reduceOp rq =>
          simp only [applyPosOp]
          cases hred : p.reduce rq with
          | none => exact hp
          | some pr =>
            rw [Position.reduce] at hred
            by_cases hgt : rq > p.quantity
            · simp [hgt] at hred
            · simp only [hgt, if_false, ite_false, reduceIte] at hred
              cases hred
              simp only []
              omega
        | priceOp pr =>
          simpa [applyPosOp, Position.update_price] using hp
      simpa [applyPosOps] using ih (applyPosOp p op) hstep hrest

/-- C4 witness: a position holding 5 shares rejects a reduce of 7
unchanged, and the sequence add 3, reduce 8, mark-to-market keeps the
quantity non-negative. -/
theorem C4_reduce_guard_nonneg_witness :
    ((⟨"SH600000", 5, 10, 12⟩ : Position).quantity < 7 →
      (⟨"SH600000", 5, 10, 12⟩ : Position).reduce 7 = none ∧
      applyPosOp ⟨"SH600000", 5, 10, 12⟩ (.reduceOp 7) = ⟨"SH600000", 5, 10, 12⟩) ∧
    (0 ≤ (⟨"SH600000", 5, 10, 12⟩ : Position).quantity →
      (∀ op ∈ [PosOp.addOp 3 10, PosOp.reduceOp 8, PosOp.priceOp 1], addQtyNonneg op) →
      0 ≤ (applyPosOps ⟨"SH600000", 5, 10, 12⟩
            [PosOp.addOp 3 10, PosOp.reduceOp 8, PosOp.priceOp 1]).quantity) :=
  C4_reduce_guard_nonneg ⟨"SH600000", 5, 10, 12⟩ 7
    [PosOp.addOp 3 10, PosOp.reduceOp 8, PosOp.priceOp 1]

/-- C8: reducing `q` shares (0 < q ≤ held) succeeds, returns realized P&L
`q * (current_price - avg_cost)`, leaves the per-share average cost
unchanged, and shrinks the derived cost basis by exactly `q * avg_cost`. -/
theorem C8_reduce_frame (p : Position) (q : ℤ) (hq : 0 < q)
    (hle : q ≤ p.quantity) :
    ∃ p' pnl, p.reduce q = some (p', pnl) ∧
      pnl = (q : ℚ) * (p.current_price - p.avg_cost) ∧
      p'.avg_cost = p.avg_cost ∧
      p'.current_price = p.current_price ∧
      p'.quantity = p.quantity - q ∧
      p'.cost_basis = p.cost_basis - (q : ℚ) * p.avg_cost := by
  refine ⟨{ p with quantity := p.quantity - q },
    (q : ℚ) * (p.current_price - p.avg_cost), ?_, rfl, rfl, rfl, rfl, ?_⟩
  · simp [Position.reduce, not_lt.mpr hle]
  · simp only [Position.cost_basis]
    push_cast
    ring

/-- C8 witness: 10 shares at average cost 8 marked at 11; reducing 4
realizes 12 and leaves the average cost at 8. -/
theorem C8_reduce_frame_witness :
    (0 : ℤ) < 4 ∧
    ∃ p' pnl, (⟨"SH600000", 10, 8, 11⟩ : Position).reduce 4 = some (p', pnl) ∧
      pnl = (4 : ℚ) * ((11 : ℚ) - 8) ∧
      p'.avg_cost = 8 ∧
      p'.current_price = 11 ∧
      p'.quantity = 6 ∧
      p'.cost_basis = (⟨"SH600000", 10, 8, 11⟩ : Position).cost_basis - (4 : ℚ) * 8 := by
  refine ⟨by norm_num, ?_⟩
  have h := C8_reduce_frame ⟨"SH600000", 10, 8, 11⟩ 4 (by norm_num) (by norm_num)
  obtain ⟨p', pnl, hred, hpnl, hac, hcp, hqty, hcb⟩ := h
  exact ⟨p', pnl, hred, by rw [hpnl]; norm_num, hac, hcp, by rw [hqty]; rfl, hcb⟩

/-- C10: `BacktestEngine.__init__` combines each argument with the global
config default using Python `or`, so an explicit 0 / 0.0 argument for
initial_capital, commission_rate, min_commission or slippage is treated
as unset and silently replaced by the config default (both on the engine
and on the broker it constructs); an explicitly requested zero commission
or slippage is therefore not honored. -/
theorem C10_zero_args_replaced (cfg : Config) (a b c d : Option ℚ) :
    (mkEngine (some 0) b c d cfg).initial_capital = cfg.initial_capital ∧
    (mkEngine a (some 0) c d cfg).commission_rate = cfg.commission_rate ∧
    (mkEngine a b (some 0) d cfg).min_commission = cfg.min_commission ∧
    (mkEngine a b c (some 0) cfg).slippage = cfg.slippage ∧
    (mkEngine a (some 0) c d cfg).broker.commission_rate = cfg.commission_rate ∧
    (mkEngine a b c (some 0) cfg).broker.slippage = cfg.slippage ∧
    (mkEngine none b c d cfg).initial_capital = cfg.initial_capital := by
  refine ⟨?_, ?_, ?_, ?_, ?_, ?_, ?_⟩ <;> simp [mkEngine, pyOr, mkBroker]

/-- Writing a key and reading it back yields the written position. -/
theorem lookupPos_setPos (ps : List (String × Position)) (sym : String)
    (pos : Position) : lookupPos (setPos ps sym pos) sym = some pos := by
  induction ps with
  | nil => simp [lookupPos, setPos]
  | cons sp rest ih =>
    by_cases h : sp.1 = sym
    · simp [lookupPos, setPos, h]
    · simp [lookupPos, setPos, h, ih]

/-- Replacing the order with a given id is a no-op on a list that does not
contain that id (the in-place mutation aliasing only touches the filled
order). -/
theorem replace_absent (l : List Order) (w : ℕ) (x : Order)
    (h : ∀ o ∈ l, o.order_id ≠ w) :
    (l.map fun o => if o.order_id = w then x else o) = l := by
  induction l with
  | nil => rfl
  | cons a t ih =>
    simp only [List.map_cons, List.cons.injEq]
    exact ⟨if_neg (h a (List.mem_cons_self a t)),
           ih fun o ho => h o (List.mem_cons_of_mem a ho)⟩

/-- C5: on a SELL signal, if there is no position for the symbol or the
held quantity is zero, the signal is dropped with the whole engine state
(clock included) unchanged; otherwise (positive holdings, a well-formed
signal, and a fresh order id) the sell quantity is clamped to
`min(signal.quantity, held)`, an order for that quantity is submitted and
filled at the bar's close (slippage-adjusted), the trade is recorded, and
`Position.reduce` shrinks the holding by the clamped quantity. -/
theorem C5_sell_signal (e : Engine) (w : ℕ) (s : Signal) (bar : Bar)
    (hact : s.action = .SELL) :
    (lookupPos e.positions s.symbol = none → e.process_signal w s bar = (w, e)) ∧
    (∀ pos, lookupPos e.positions s.symbol = some pos → pos.quantity = 0 →
      e.process_signal w s bar = (w, e)) ∧
    (∀ pos, lookupPos e.positions s.symbol = some pos →
      0 < pos.quantity → 0 < s.quantity → 0 < s.price →
      (∀ o ∈ e.broker.orders, o.order_id ≠ w) →
      ∃ t : Trade,
        t.side = .SELL ∧
        t.quantity = min s.quantity pos.quantity ∧
        t.price = bar.close * (1 - e.broker.slippage) ∧
        (e.process_signal w s bar).1 = w + 2 ∧
        (e.process_signal w s bar).2.broker.trades = e.broker.trades ++ [t] ∧
        (∃ od : Order, od.status = .FILLED ∧ od.side = .SELL ∧
          od.quantity = min s.quantity pos.quantity ∧
          od.filled_price = bar.close * (1 - e.broker.slippage) ∧
          (e.process_signal w s bar).2.broker.orders = e.broker.orders ++ [od]) ∧
        lookupPos (e.process_signal w s bar).2.positions s.symbol =
          some { pos with quantity := pos.quantity - min s.quantity pos.quantity }) := by
  refine ⟨fun hlook => ?_, fun pos hlook hz => ?_, fun pos hlook hq hsq hp hfresh => ?_⟩
  · simp [Engine.process_signal, hact, hlook]
  · simp [Engine.process_signal, hact, hlook, hz]
  · have hmin : 0 < min s.quantity pos.quantity := lt_min hsq hq
    have hqz : ¬ (pos.quantity = 0) := hq.ne'
    have hred : ¬ (min s.quantity pos.quantity > pos.quantity) :=
      not_lt.mpr (min_le_right _ _)
    have hsub :
        e.broker.submit_order w s.symbol .SELL (min s.quantity pos.quantity) s.price =
          (w + 1,
           { e.broker with orders := e.broker.orders ++
              [{ order_id := w, symbol := s.symbol, side := .SELL
                 quantity := min s.quantity pos.quantity, price := s.price
                 status := .PENDING, filled_quantity := 0, filled_price := 0
                 commission := 0 }] },
           .ok { order_id := w, symbol := s.symbol, side := .SELL
                 quantity := min s.quantity pos.quantity, price := s.price
                 status := .PENDING, filled_quantity := 0, filled_price := 0
                 commission := 0 }) := by
      simp [Broker.submit_order, not_le.mpr hmin, not_le.mpr hp]
    have hps : e.process_signal w s bar =
        (w + 2,
         { e with
           broker :=
             { e.broker with
               cash := e.broker.cash +
                 ((min s.quantity pos.quantity : ℚ) *
                    (bar.close * (1 - e.broker.slippage)) -
                  max ((min s.quantity pos.quantity : ℚ) *
                      (bar.close * (1 - e.broker.slippage)) * e.broker.commission_rate)
                    e.broker.min_commission -
                  (min s.quantity pos.quantity : ℚ) *
                    (bar.close * (1 - e.broker.slippage)) * e.broker.stamp_tax)
               orders := e.broker.orders ++
                 [{ order_id := w, symbol := s.symbol, side := .SELL
                    quantity := min s.quantity pos.quantity, price := s.price
                    status := .FILLED
                    filled_quantity := min s.quantity pos.quantity
                    filled_price := bar.close * (1 - e.broker.slippage)
                    commission := max ((min s.quantity pos.quantity : ℚ) *
                        (bar.close * (1 - e.broker.slippage)) * e.broker.commission_rate)
                      e.broker.min_commission }]
               trades := e.broker.trades ++
                 [{ trade_id := w + 1, order_id := w, symbol := s.symbol, side := .SELL
                    quantity := min s.quantity pos.quantity
                    price := bar.close * (1 - e.broker.slippage)
                    commission := max ((min s.quantity pos.quantity : ℚ) *
                        (bar.close * (1 - e.broker.slippage)) * e.broker.commission_rate)
                      e.broker.min_commission }] }
           positions := setPos e.positions s.symbol
             { pos with quantity := pos.quantity - min s.quantity pos.quantity } }) := by
      simp only [Engine.process_signal, hact, hlook, hqz, if_false, ite_false, reduceIte,
        hsub, Broker.fill_order, Order.filled_amount, Broker.calculate_commission,
        Position.reduce, hred, ne_eq, not_true_eq_false, reduceCtorEq, not_false_eq_true,
        ite_true, if_true, Option.getD_some, decide_eq_true_eq]
      rw [List.map_append,
        replace_absent e.broker.orders w _ hfresh]
      simp
    refine ⟨{ trade_id := w + 1, order_id := w, symbol := s.symbol, side := .SELL
              quantity := min s.quantity pos.quantity
              price := bar.close * (1 - e.broker.slippage)
              commission := max ((min s.quantity pos.quantity : ℚ) *
                  (bar.close * (1 - e.broker.slippage)) * e.broker.commission_rate)
                e.broker.min_commission },
           rfl, rfl, rfl, ?_, ?_, ?_, ?_⟩
    · rw [hps]
    · rw [hps]
    · refine ⟨{ order_id := w, symbol := s.symbol, side := .SELL
                quantity := min s.quantity pos.quantity, price := s.price
                status := .FILLED
                filled_quantity := min s.quantity pos.quantity
                filled_price := bar.close * (1 - e.broker.slippage)
                commission := max ((min s.quantity pos.quantity : ℚ) *
                    (bar.close * (1 - e.broker.slippage)) * e.broker.commission_rate)
                  e.broker.min_commission },
              rfl, rfl, rfl, rfl, ?_⟩
      rw [hps]
    · rw [hps]
      exact lookupPos_setPos e.positions s.symbol _

/-- A held position of 10 shares used to witness the SELL-path theorem. -/
def wPos : Position := ⟨"SH600000", 10, 8, 9⟩

/-- Engine with one open position, for the C5 witness. -/
def wEngineC5 : Engine :=
  { mkEngine none none none none ⟨100000, 3 / 10000, 5, 0⟩ with
    positions := [("SH600000", wPos)] }

/-- A SELL signal for 4 shares at 9. -/
def wSellSig : Signal := ⟨.SELL, "SH600000", 9, 4⟩

/-- A bar closing at 9. -/
def wBar : Bar := ⟨1, 9⟩

/-- C5 witness: selling 4 of 10 held shares goes through the full
submit / fill / reduce path. -/
theorem C5_sell_signal_witness :
    0 < wPos.quantity ∧ 0 < wSellSig.quantity ∧ 0 < wSellSig.price ∧
    ∃ t : Trade,
      t.side = .SELL ∧
      t.quantity = min wSellSig.quantity wPos.quantity ∧
      t.price = wBar.close * (1 - wEngineC5.broker.slippage) ∧
      (wEngineC5.process_signal 0 wSellSig wBar).1 = 0 + 2 ∧
      (wEngineC5.process_signal 0 wSellSig wBar).2.broker.trades =
        wEngineC5.broker.trades ++ [t] ∧
      (∃ od : Order, od.status = .FILLED ∧ od.side = .SELL ∧
        od.quantity = min wSellSig.quantity wPos.quantity ∧
        od.filled_price = wBar.close * (1 - wEngineC5.broker.slippage) ∧
        (wEngineC5.process_signal 0 wSellSig wBar).2.broker.orders =
          wEngineC5.broker.orders ++ [od]) ∧
      lookupPos (wEngineC5.process_signal 0 wSellSig wBar).2.positions
          wSellSig.symbol =
        some { wPos with quantity := wPos.quantity - min wSellSig.quantity wPos.quantity } :=
  ⟨by decide, by decide, by decide,
   (C5_sell_signal wEngineC5 0 wSellSig wBar rfl).2.2 wPos (by decide) (by decide)
     (by decide) (by decide) (by decide)⟩

/-- The value series is non-decreasing (chronologically). -/
def nonDecr (vs : List ℚ) : Prop := List.Chain' (· ≤ ·) vs

/-- The spec's drawdown terms `(cummax(V)_t - V_t) / cummax(V)_t`. -/
def ddFormulaList (vs : List ℚ) : List ℚ :=
  List.zipWith (fun m v => (m - v) / m) (cummax vs) vs

/-- The drawdown tail with an explicit running maximum accumulator. -/
def ddTail (m : ℚ) (l : List ℚ) : List ℚ :=
  List.zipWith (fun mm v => (mm - v) / mm) (cummaxFrom m l) l

theorem le_foldl_max (t : List ℚ) (a : ℚ) : a ≤ t.foldl max a := by
  induction t generalizing a with
  | nil => exact le_refl a
  | cons h rest ih =>
    exact le_trans (le_max_left a h) (ih (max a h))

theorem foldl_max_le (t : List ℚ) (a c : ℚ) (ha : a ≤ c)
    (ht : ∀ x ∈ t, x ≤ c) : t.foldl max a ≤ c := by
  induction t generalizing a with
  | nil => exact ha
  | cons h rest ih =>
    exact ih (max a h) (max_le ha (ht h (List.mem_cons_self h rest)))
      fun x hx => ht x (List.mem_cons_of_mem h hx)

theorem mem_le_foldl_max (t : List ℚ) (a x : ℚ) (hx : x ∈ t) :
    x ≤ t.foldl max a := by
  induction t generalizing a with
  | nil => cases hx
  | cons h rest ih =>
    rcases List.mem_cons.mp hx with rfl | hx'
    · exact le_trans (le_max_right a x) (le_foldl_max rest (max a x))
    · exact ih (max a h) hx'

theorem listMin_map_neg (l : List ℚ) :
    listMin (l.map fun x => -x) = -listMax l := by
  cases l with
  | nil => simp [listMin, listMax]
  | cons x t =>
    simp only [List.map_cons, listMin, listMax]
    induction t generalizing x with
    | nil => simp
    | cons h rest ih =>
      simp only [List.map_cons, List.foldl_cons]
      rw [min_neg_neg]
      exact ih (max x h)

theorem zipWith_div_neg (xs ms : List ℚ) :
    List.zipWith (fun v m => (v - m) / m) xs ms =
      (List.zipWith (fun m v => (m - v) / m) ms xs).map fun x => -x := by
  induction xs generalizing ms with
  | nil => cases ms <;> simp
  | cons x t ih =>
    cases ms with
    | nil => simp
    | cons m mt =>
      simp only [List.zipWith_cons_cons, List.map_cons, List.cons.injEq]
      exact ⟨by rw [← neg_div, neg_sub], ih mt⟩

/-- `maxDrawdown` on a non-empty series is the maximum of the spec's
drawdown terms (which start with a 0 for the first bar). -/
theorem maxDrawdown_eq_listMax (v : ℚ) (rest : List ℚ) :
    maxDrawdown (v :: rest) = listMax (ddFormulaList (v :: rest)) ∧
    ddFormulaList (v :: rest) = 0 :: ddTail v rest := by
  have hdd : ddFormulaList (v :: rest) = 0 :: ddTail v rest := by
    simp [ddFormulaList, cummax, ddTail, sub_self, zero_div]
  constructor
  · rw [maxDrawdown, if_neg (by simp)]
    rw [show List.zipWith (fun v m => (v - m) / m) (v :: rest) (cummax (v :: rest)) =
        (ddFormulaList (v :: rest)).map fun x => -x from
      zipWith_div_neg (v :: rest) (cummax (v :: rest))]
    rw [listMin_map_neg, abs_neg]
    rw [hdd]
    have h0 : (0 : ℚ) ≤ listMax (0 :: ddTail v rest) := le_foldl_max _ 0
    rw [abs_of_nonneg h0]
  · exact hdd

theorem ddTail_all_zero_of_chain (l : List ℚ) (m : ℚ)
    (hch : List.Chain (· ≤ ·) m l) : ∀ x ∈ ddTail m l, x = 0 := by
  induction l generalizing m with
  | nil => intro x hx; cases hx
  | cons h t ih =>
    rcases List.chain_cons.mp hch with ⟨hmh, hcht⟩
    intro x hx
    rw [ddTail, cummaxFrom, max_eq_right hmh] at hx
    simp only [List.zipWith_cons_cons, sub_self, zero_div, List.mem_cons] at hx
    rcases hx with rfl | hx'
    · rfl
    · exact ih h hcht x hx'

theorem chain_of_ddTail_nonpos (l : List ℚ) (m : ℚ) (hm : 0 < m)
    (hnp : ∀ x ∈ ddTail m l, x ≤ 0) : List.Chain (· ≤ ·) m l := by
  induction l generalizing m with
  | nil => exact List.Chain.nil
  | cons h t ih =>
    have hhead : (max m h - h) / max m h ≤ 0 := by
      apply hnp
      rw [ddTail, cummaxFrom]
      simp only [List.zipWith_cons_cons]
      exact List.mem_cons_self _ _
    have hmax : 0 < max m h := lt_of_lt_of_le hm (le_max_left m h)
    have hsub : max m h - h ≤ 0 := by
      by_contra hc
      push_neg at hc
      exact absurd (div_pos hc hmax) (not_lt.mpr hhead)
    have hmh : m ≤ h := by
      rcases max_cases m h with ⟨he, _⟩ | ⟨he, hlt⟩
      · rw [he] at hsub; linarith
      · exact le_of_lt hlt
    refine List.chain_cons.mpr ⟨hmh, ih h (lt_of_lt_of_le hm hmh) ?_⟩
    intro x hx
    apply hnp
    rw [ddTail, cummaxFrom, max_eq_right hmh]
    simp only [List.zipWith_cons_cons, List.mem_cons]
    exact Or.inr (by rw [ddTail] at hx; exact hx)

/-- C6 counterexample: for the (everywhere-negative) value series
[-1, -2] the code computes max_drawdown = 0 although the series is
strictly decreasing, so "max_drawdown = 0 iff the value series is
non-decreasing" fails as stated for arbitrary series. -/
theorem C6_counterexample :
    maxDrawdown [(-1 : ℚ), -2] = 0 ∧ ¬ nonDecr [(-1 : ℚ), -2] := by
  constructor
  · norm_num [maxDrawdown, cummax, cummaxFrom, listMin]
  · intro h
    rcases List.chain_cons.mp h with ⟨hle, _⟩
    norm_num at hle

/-- C6 amended: for a series with positive first value (hence positive
running peak throughout — true of any run started with positive capital),
max_drawdown equals the maximum over t of `(cummax(V)_t - V_t)/cummax(V)_t`,
is non-negative, and is 0 exactly when the series is non-decreasing; on
[100,110,90,120] it is (110-90)/110 = 2/11.  (For series reaching zero or
negative values the iff fails, see the counterexample.) -/
theorem C6_maxDrawdown_amended (v : ℚ) (rest : List ℚ) (h0 : 0 < v) :
    maxDrawdown (v :: rest) = listMax (ddFormulaList (v :: rest)) ∧
    0 ≤ maxDrawdown (v :: rest) ∧
    (maxDrawdown (v :: rest) = 0 ↔ nonDecr (v :: rest)) ∧
    maxDrawdown [(100 : ℚ), 110, 90, 120] = 2 / 11 := by
  obtain ⟨heq, hdd⟩ := maxDrawdown_eq_listMax v rest
  have hmax0 : (0 : ℚ) ≤ listMax (0 :: ddTail v rest) := le_foldl_max _ 0
  refine ⟨heq, ?_, ?_, ?_⟩
  · rw [heq, hdd]
    exact hmax0
  · constructor
    · intro hmd
      rw [heq, hdd] at hmd
      have hall : ∀ x ∈ ddTail v rest, x ≤ 0 := by
        intro x hx
        have hle := mem_le_foldl_max (ddTail v rest) 0 x hx
        have : listMax (0 :: ddTail v rest) = (ddTail v rest).foldl max 0 := rfl
        rw [this] at hmd
        rw [hmd] at hle
        exact hle
      exact chain_of_ddTail_nonpos rest v h0 hall
    · intro hnd
      rw [heq, hdd]
      have hz := ddTail_all_zero_of_chain rest v hnd
      have hle : listMax (0 :: ddTail v rest) ≤ 0 :=
        foldl_max_le _ 0 0 le_rfl fun x hx => le_of_eq (hz x hx)
      exact le_antisymm hle hmax0
  · rw [maxDrawdown, if_neg (show ([(100 : ℚ), 110, 90, 120] : List ℚ) ≠ [] by simp)]
    have hmin : listMin (List.zipWith (fun v m => (v - m) / m) [(100 : ℚ), 110, 90, 120]
        (cummax [(100 : ℚ), 110, 90, 120])) = -(2 / 11) := by
      norm_num [cummax, cummaxFrom, listMin, min_def]
    rw [hmin, abs_neg, abs_of_nonneg (by norm_num : (0 : ℚ) ≤ 2 / 11)]

/-- C6 witness: the amended theorem applied to the spec's series
[100,110,90,120]. -/
theorem C6_maxDrawdown_amended_witness :
    (0 : ℚ) < 100 ∧
    (maxDrawdown [(100 : ℚ), 110, 90, 120] =
        listMax (ddFormulaList [(100 : ℚ), 110, 90, 120]) ∧
      0 ≤ maxDrawdown [(100 : ℚ), 110, 90, 120] ∧
      (maxDrawdown [(100 : ℚ), 110, 90, 120] = 0 ↔
        nonDecr [(100 : ℚ), 110, 90, 120]) ∧
      maxDrawdown [(100 : ℚ), 110, 90, 120] = 2 / 11) :=
  ⟨by norm_num, C6_maxDrawdown_amended 100 [110, 90, 120] (by norm_num)⟩

/-- C7 counterexample: on a single-element return series, pandas
`std(ddof=1)` is NaN, so `volatility` and `sharpe_ratio` return NaN
(modelled as `none`) instead of the claimed 0.0: the degenerate input is
not mapped to 0.0 (no exception is raised, but the claim says "returns
exactly 0.0"). -/
theorem C7_counterexample :
    volatility (fun x => x) [(1 : ℚ) / 10] = none ∧
    volatility (fun x => x) [(1 : ℚ) / 10] ≠ some 0 ∧
    sharpe (fun x => x) [(1 : ℚ) / 10] RISK_FREE_RATE = none := by
  refine ⟨?_, ?_, ?_⟩ <;>
    simp [volatility, sharpe, seriesStd, seriesVar]

/-- C7 amended: the metrics functions are total and return exactly 0.0 on
empty input, on a single-element value series (total/annual return), on a
zero initial value, on zero standard deviation, when there are no
negative returns, and when max drawdown is zero — but `volatility`,
`sharpe_ratio` and `sortino_ratio` applied to a (downside) series of
length 1 produce NaN (pandas std with ddof=1), not 0.0 (see the
counterexample).  `powf`/`sqrtf` are the IEEE float primitives; only
`powf 1 e = 1` is needed. -/
theorem C7_metrics_degenerate (powf : ℚ → ℚ → ℚ) (sqrtf : ℚ → ℚ) (rf : ℚ)
    (hpow1 : ∀ e, powf 1 e = 1) :
    totalReturn [] = 0 ∧
    (∀ x : ℚ, totalReturn [x] = 0) ∧
    (∀ rest : List ℚ, totalReturn (0 :: rest) = 0) ∧
    annualReturn powf [] = 0 ∧
    (∀ x : ℚ, annualReturn powf [x] = 0) ∧
    volatility sqrtf [] = some 0 ∧
    maxDrawdown [] = 0 ∧
    sharpe sqrtf [] rf = some 0 ∧
    (∀ rs, seriesStd sqrtf rs = some 0 → sharpe sqrtf rs rf = some 0) ∧
    sortino sqrtf [] rf = some 0 ∧
    (∀ rs : List ℚ, rs.filter (fun r => r < 0) = [] → sortino sqrtf rs rf = some 0) ∧
    (∀ vs, maxDrawdown vs = 0 → calmar powf vs = 0) := by
  have htr : ∀ x : ℚ, totalReturn [x] = 0 := by
    intro x
    by_cases hx : x = 0 <;> simp [totalReturn, hx]
  refine ⟨by simp [totalReturn], htr, ?_, by simp [annualReturn], ?_, ?_, ?_, ?_, ?_,
    ?_, ?_, ?_⟩
  · intro rest
    simp [totalReturn]
  · intro x
    simp [annualReturn, htr x, hpow1]
  · simp [volatility]
  · simp [maxDrawdown]
  · simp [sharpe]
  · intro rs hstd
    by_cases hrs : rs = []
    · simp [sharpe, hrs]
    · simp [sharpe, hrs, hstd]
  · simp [sortino]
  · intro rs hfil
    by_cases hrs : rs = []
    · simp [sortino, hrs]
    · simp [sortino, hrs, hfil]
  · intro vs hdd
    simp [calmar, hdd]

/-- C7 witness: the amended theorem instantiated with concrete float
primitives and evaluated on concrete degenerate inputs. -/
theorem C7_metrics_degenerate_witness :
    volatility (fun x => x) [] = some 0 ∧
    totalReturn [(7 : ℚ)] = 0 ∧
    annualReturn (fun b _ => b) [(7 : ℚ)] = 0 ∧
    sortino (fun x => x) [(1 : ℚ) / 10, 2 / 10] RISK_FREE_RATE = some 0 ∧
    calmar (fun b _ => b) [(5 : ℚ), 5] = 0 := by
  obtain ⟨h1, h2, h3, h4, h5, h6, h7, h8, h9, h10, h11, h12⟩ :=
    C7_metrics_degenerate (fun b _ => b) (fun x => x) RISK_FREE_RATE
      fun e => rfl
  refine ⟨h6, h2 7, h5 7, h11 [(1 : ℚ) / 10, 2 / 10] ?_, h12 [(5 : ℚ), 5] ?_⟩
  · norm_num [List.filter]
  · norm_num [maxDrawdown, cummax, cummaxFrom, listMin, min_def]

/-- A failing submit leaves the broker exactly as it was. -/
theorem submit_order_error_broker (b : Broker) (w : ℕ) (sym : String)
    (side : OrderSide) (q : ℤ) (p : ℚ) (w' : ℕ) (b' : Broker) (err : BrokerErr)
    (h : b.submit_order w sym side q p = (w', b', .error err)) : b' = b := by
  rw [Broker.submit_order] at h
  split_ifs at h <;> simp_all

/-- Inversion of a successful submit: the order is appended in PENDING
state with the validated fields, and for a BUY the checked total cost did
not exceed cash. -/
theorem submit_order_ok_inv (b : Broker) (w : ℕ) (sym : String)
    (side : OrderSide) (q : ℤ) (p : ℚ) (w' : ℕ) (b' : Broker) (o : Order)
    (h : b.submit_order w sym side q p = (w', b', .ok o)) :
    w' = w + 1 ∧ b' = { b with orders := b.orders ++ [o] } ∧
    o = { order_id := w, symbol := sym, side := side, quantity := q, price := p
          status := .PENDING, filled_quantity := 0, filled_price := 0
          commission := 0 } ∧
    0 < q ∧ 0 < p ∧
    (side = OrderSide.BUY → b.calculate_buy_cost q p ≤ b.cash) := by
  rw [Broker.submit_order] at h
  split_ifs at h with h1 h2 h3
  · simp_all
  · simp_all
  · simp_all
  · push_neg at h1 h2
    injection h with hw h2'
    injection h2' with hb ho
    have ho' : o = { order_id := w, symbol := sym, side := side, quantity := q
                     price := p, status := .PENDING, filled_quantity := 0
                     filled_price := 0, commission := 0 } := (Except.ok.inj ho).symm
    refine ⟨hw.symm, ?_, ho', h1, h2, ?_⟩
    · rw [← hb, ho']
    · intro hside
      by_contra hc
      push_neg at hc
      exact h3 ⟨hside, hc⟩

/-- Evaluating a fill of a PENDING BUY order at close price `c`. -/
theorem fill_order_buy_eval (b : Broker) (w : ℕ) (o : Order) (c : ℚ)
    (hpend : o.status = OrderStatus.PENDING) (hside : o.side = OrderSide.BUY) :
    b.fill_order w o (some c) =
      (w + 1,
       { b with
         cash := b.cash - ((o.quantity : ℚ) * (c * (1 + b.slippage)) +
           max ((o.quantity : ℚ) * (c * (1 + b.slippage)) * b.commission_rate)
             b.min_commission)
         orders := b.orders.map fun o' =>
           if o'.order_id = o.order_id then
             { o with filled_quantity := o.quantity
                      filled_price := c * (1 + b.slippage)
                      commission := max ((o.quantity : ℚ) * (c * (1 + b.slippage)) *
                          b.commission_rate) b.min_commission
                      status := .FILLED }
           else o'
         trades := b.trades ++
           [{ trade_id := w, order_id := o.order_id, symbol := o.symbol
              side := o.side, quantity := o.quantity
              price := c * (1 + b.slippage)
              commission := max ((o.quantity : ℚ) * (c * (1 + b.slippage)) *
                  b.commission_rate) b.min_commission }] },
       .ok ({ o with filled_quantity := o.quantity
                     filled_price := c * (1 + b.slippage)
                     commission := max ((o.quantity : ℚ) * (c * (1 + b.slippage)) *
                         b.commission_rate) b.min_commission
                     status := .FILLED },
            { trade_id := w, order_id := o.order_id, symbol := o.symbol
              side := o.side, quantity := o.quantity
              price := c * (1 + b.slippage)
              commission := max ((o.quantity : ℚ) * (c * (1 + b.slippage)) *
                  b.commission_rate) b.min_commission })) := by
  simp [Broker.fill_order, hpend, hside, Broker.calculate_commission,
    Order.filled_amount]

/-- Evaluating a fill of a PENDING SELL order at close price `c`. -/
theorem fill_order_sell_eval (b : Broker) (w : ℕ) (o : Order) (c : ℚ)
    (hpend : o.status = OrderStatus.PENDING) (hside : o.side = OrderSide.SELL) :
    b.fill_order w o (some c) =
      (w + 1,
       { b with
         cash := b.cash + ((o.quantity : ℚ) * (c * (1 - b.slippage)) -
           max ((o.quantity : ℚ) * (c * (1 - b.slippage)) * b.commission_rate)
             b.min_commission -
           (o.quantity : ℚ) * (c * (1 - b.slippage)) * b.stamp_tax)
         orders := b.orders.map fun o' =>
           if o'.order_id = o.order_id then
             { o with filled_quantity := o.quantity
                      filled_price := c * (1 - b.slippage)
                      commission := max ((o.quantity : ℚ) * (c * (1 - b.slippage)) *
                          b.commission_rate) b.min_commission
                      status := .FILLED }
           else o'
         trades := b.trades ++
           [{ trade_id := w, order_id := o.order_id, symbol := o.symbol
              side := o.side, quantity := o.quantity
              price := c * (1 - b.slippage)
              commission := max ((o.quantity : ℚ) * (c * (1 - b.slippage)) *
                  b.commission_rate) b.min_commission }] },
       .ok ({ o with filled_quantity := o.quantity
                     filled_price := c * (1 - b.slippage)
                     commission := max ((o.quantity : ℚ) * (c * (1 - b.slippage)) *
                         b.commission_rate) b.min_commission
                     status := .FILLED },
            { trade_id := w, order_id := o.order_id, symbol := o.symbol
              side := o.side, quantity := o.quantity
              price := c * (1 - b.slippage)
              commission := max ((o.quantity : ℚ) * (c * (1 - b.slippage)) *
                  b.commission_rate) b.min_commission })) := by
  have hns : o.side ≠ OrderSide.BUY := by rw [hside]; intro hc; cases hc
  simp [Broker.fill_order, hpend, hside, hns, Broker.calculate_commission,
    Order.filled_amount]

/-- Buy cost (notional plus clamped commission) is monotone in the price. -/
theorem buy_cost_mono (q : ℤ) (p1 p2 cr mc : ℚ) (hq : 0 ≤ (q : ℚ))
    (hcr : 0 ≤ cr) (hp : p1 ≤ p2) :
    (q : ℚ) * p1 + max ((q : ℚ) * p1 * cr) mc ≤
      (q : ℚ) * p2 + max ((q : ℚ) * p2 * cr) mc := by
  have h1 : (q : ℚ) * p1 ≤ (q : ℚ) * p2 := mul_le_mul_of_nonneg_left hp hq
  exact add_le_add h1 (max_le_max (mul_le_mul_of_nonneg_right h1 hcr) le_rfl)

/-- Net sell proceeds are non-negative when the per-share proceeds after
commission rate and stamp tax cover the minimum commission. -/
theorem sell_received_nonneg (sq : ℤ) (c' cr mc st : ℚ)
    (hsq : 1 ≤ (sq : ℚ)) (hc : 0 ≤ c') (hcr : 0 ≤ cr) (hst : 0 ≤ st)
    (hmc : 0 ≤ mc) (hcond : mc ≤ c' * (1 - cr - st)) :
    0 ≤ (sq : ℚ) * c' - max ((sq : ℚ) * c' * cr) mc - (sq : ℚ) * c' * st := by
  have hx : 0 ≤ c' * (1 - cr - st) := le_trans hmc hcond
  have hax : c' * (1 - cr - st) ≤ (sq : ℚ) * (c' * (1 - cr - st)) :=
    le_mul_of_one_le_left hx hsq
  have hexp : (sq : ℚ) * (c' * (1 - cr - st)) =
      (sq : ℚ) * c' - (sq : ℚ) * c' * cr - (sq : ℚ) * c' * st := by ring
  have ha0 : 0 ≤ (sq : ℚ) * c' := mul_nonneg (by linarith) hc
  have hacr : 0 ≤ (sq : ℚ) * c' * cr := mul_nonneg ha0 hcr
  have h5 : mc ≤ (sq : ℚ) * c' - (sq : ℚ) * c' * cr - (sq : ℚ) * c' * st := by
    rw [← hexp]
    exact le_trans hcond hax
  rcases max_cases ((sq : ℚ) * c' * cr) mc with ⟨hmaxeq, _⟩ | ⟨hmaxeq, _⟩ <;>
    rw [hmaxeq] <;> linarith

/-- A successful lookup is a membership in the position map. -/
theorem lookupPos_mem (ps : List (String × Position)) (sym : String)
    (pos : Position) (h : lookupPos ps sym = some pos) : (sym, pos) ∈ ps := by
  induction ps with
  | nil => cases h
  | cons sp rest ih =>
    obtain ⟨k, v⟩ := sp
    rw [lookupPos] at h
    by_cases hk : k = sym
    · rw [if_pos hk] at h
      have hv : v = pos := Option.some.inj h
      rw [← hk, ← hv]
      exact List.mem_cons_self _ _
    · rw [if_neg hk] at h
      exact List.mem_cons_of_mem _ (ih h)

/-- Every entry after a dict write is the written pair or an old entry. -/
theorem mem_setPos (ps : List (String × Position)) (sym : String)
    (pos : Position) (sp : String × Position) (h : sp ∈ setPos ps sym pos) :
    sp = (sym, pos) ∨ sp ∈ ps := by
  induction ps with
  | nil => simpa [setPos] using h
  | cons hd rest ih =>
    rw [setPos] at h
    by_cases hh : hd.1 = sym
    · rw [if_pos hh] at h
      rcases List.mem_cons.mp h with rfl | hmem
      · exact Or.inl rfl
      · exact Or.inr (List.mem_cons_of_mem _ hmem)
    · rw [if_neg hh] at h
      rcases List.mem_cons.mp h with rfl | hmem
      · exact Or.inr (List.mem_cons_self _ _)
      · rcases ih hmem with h1 | h2
        · exact Or.inl h1
        · exact Or.inr (List.mem_cons_of_mem _ h2)

/-- Sufficient per-bar condition under which the engine's optimistic
"check at signal price, fill at close" discipline cannot overdraw cash:
a BUY's slippage-adjusted close does not exceed the signal price it was
funds-checked against, and a SELL's per-share net proceeds cover the
minimum commission. -/
def safePair (cr mc st sl : ℚ) (p : Bar × Option Signal) : Prop :=
  match p.2 with
  | none => True
  | some s =>
    match s.action with
    | .BUY => p.1.close * (1 + sl) ≤ s.price
    | .SELL => 0 ≤ p.1.close ∧ mc ≤ p.1.close * (1 - sl) * (1 - cr - st)
    | .HOLD => True

/-- The broker's fee/slippage configuration. -/
def ratesEq (b b' : Broker) : Prop :=
  b.commission_rate = b'.commission_rate ∧ b.min_commission = b'.min_commission ∧
  b.stamp_tax = b'.stamp_tax ∧ b.slippage = b'.slippage

/-- Processing one signal preserves non-negative cash and non-negative
position quantities, and never touches the broker's fee/slippage
configuration, provided the bar/signal pair satisfies `safePair`. -/
theorem process_signal_inv (e : Engine) (w : ℕ) (s : Signal) (bar : Bar)
    (hcr : 0 ≤ e.broker.commission_rate) (hmc : 0 ≤ e.broker.min_commission)
    (hst : 0 ≤ e.broker.stamp_tax) (hsl1 : e.broker.slippage ≤ 1)
    (hcash : 0 ≤ e.broker.cash)
    (hpos : ∀ sp ∈ e.positions, 0 ≤ sp.2.quantity)
    (hsafe : safePair e.broker.commission_rate e.broker.min_commission
      e.broker.stamp_tax e.broker.slippage (bar, some s)) :
    0 ≤ (e.process_signal w s bar).2.broker.cash ∧
    (∀ sp ∈ (e.process_signal w s bar).2.positions, 0 ≤ sp.2.quantity) ∧
    ratesEq (e.process_signal w s bar).2.broker e.broker := by
  rcases hact : s.action with _ | _ | _
  · -- BUY
    simp only [safePair, hact] at hsafe
    rcases hsub : e.broker.submit_order w s.symbol .BUY s.quantity s.price with
      ⟨w', b', err | o⟩
    · have hb := submit_order_error_broker _ _ _ _ _ _ _ _ _ hsub
      have hps : e.process_signal w s bar = (w', { e with broker := b' }) := by
        simp only [Engine.process_signal, hact, hsub]
      rw [hps]
      subst hb
      exact ⟨hcash, hpos, rfl, rfl, rfl, rfl⟩
    · obtain ⟨hw, hb, ho, hq, hp, hcost⟩ := submit_order_ok_inv _ _ _ _ _ _ _ _ _ hsub
      have hfill := fill_order_buy_eval b' w' o bar.close (by rw [ho]) (by rw [ho])
      simp only [Engine.process_signal, hact, hsub, hfill]
      have hoq : o.quantity = s.quantity := by rw [ho]
      have hbfields : b'.cash = e.broker.cash ∧
          b'.commission_rate = e.broker.commission_rate ∧
          b'.min_commission = e.broker.min_commission ∧
          b'.stamp_tax = e.broker.stamp_tax ∧
          b'.slippage = e.broker.slippage := by rw [hb]; exact ⟨rfl, rfl, rfl, rfl, rfl⟩
      obtain ⟨hbc, hbcr, hbmc, hbst, hbsl⟩ := hbfields
      refine ⟨?_, ?_, ?_⟩
      · simp only [hbc, hbcr, hbmc, hbsl, hoq]
        have hcost' := hcost rfl
        rw [Broker.calculate_buy_cost, Broker.calculate_commission] at hcost'
        have hmono := buy_cost_mono s.quantity (bar.close * (1 + e.broker.slippage))
          s.price e.broker.commission_rate e.broker.min_commission
          (by exact_mod_cast hq.le) hcr hsafe
        linarith
      · intro sp hsp
        rcases mem_setPos _ _ _ _ hsp with rfl | hmem
        · simp only [Position.add]
          have h0 : 0 ≤ (match lookupPos e.positions s.symbol with
              | none => { symbol := s.symbol, quantity := 0, avg_cost := 0
                          current_price := bar.close : Position }
              | some p => p).quantity := by
            cases hlook : lookupPos e.positions s.symbol with
            | none => simp
            | some p => exact hpos _ (lookupPos_mem _ _ _ hlook)
          rw [hoq]
          omega
        · exact hpos sp hmem
      · exact ⟨hbcr, hbmc, hbst, hbsl⟩
  · -- SELL
    simp only [safePair, hact] at hsafe
    rcases hlook : lookupPos e.positions s.symbol with _ | pos
    · have hps : e.process_signal w s bar = (w, e) := by
        simp only [Engine.process_signal, hact, hlook]
      rw [hps]
      exact ⟨hcash, hpos, rfl, rfl, rfl, rfl⟩
    · by_cases hz : pos.quantity = 0
      · have hps : e.process_signal w s bar = (w, e) := by
          simp only [Engine.process_signal, hact, hlook, hz, ite_true, if_true]
        rw [hps]
        exact ⟨hcash, hpos, rfl, rfl, rfl, rfl⟩
      · have hposq : 0 < pos.quantity :=
          lt_of_le_of_ne (hpos _ (lookupPos_mem _ _ _ hlook)) (Ne.symm hz)
        rcases hsub : e.broker.submit_order w s.symbol .SELL
            (min s.quantity pos.quantity) s.price with ⟨w', b', err | o⟩
        · have hb := submit_order_error_broker _ _ _ _ _ _ _ _ _ hsub
          have hps : e.process_signal w s bar = (w', { e with broker := b' }) := by
            simp only [Engine.process_signal, hact, hlook, hz, ite_false, if_false,
              reduceIte, hsub]
          rw [hps]
          subst hb
          exact ⟨hcash, hpos, rfl, rfl, rfl, rfl⟩
        · obtain ⟨hw, hb, ho, hq, hp, _⟩ := submit_order_ok_inv _ _ _ _ _ _ _ _ _ hsub
          have hfill := fill_order_sell_eval b' w' o bar.close (by rw [ho]) (by rw [ho])
          have hoq : o.quantity = min s.quantity pos.quantity := by rw [ho]
          have hnred : ¬ (o.quantity > pos.quantity) := by
            rw [hoq]
            exact not_lt.mpr (min_le_right _ _)
          have hredok : pos.reduce o.quantity =
              some ({ pos with quantity := pos.quantity - o.quantity },
                    (o.quantity : ℚ) * (pos.current_price - pos.avg_cost)) := by
            simp [Position.reduce, hnred]
          simp only [Engine.process_signal, hact, hlook, hz, ite_false, if_false,
            reduceIte, hsub, hfill, hredok]
          have hbfields : b'.cash = e.broker.cash ∧
              b'.commission_rate = e.broker.commission_rate ∧
              b'.min_commission = e.broker.min_commission ∧
              b'.stamp_tax = e.broker.stamp_tax ∧
              b'.slippage = e.broker.slippage := by rw [hb]; exact ⟨rfl, rfl, rfl, rfl, rfl⟩
          obtain ⟨hbc, hbcr, hbmc, hbst, hbsl⟩ := hbfields
          refine ⟨?_, ?_, ?_⟩
          · simp only [hbc, hbcr, hbmc, hbst, hbsl, hoq]
            refine add_nonneg hcash ?_
            refine sell_received_nonneg (min s.quantity pos.quantity)
              (bar.close * (1 - e.broker.slippage)) e.broker.commission_rate
              e.broker.min_commission e.broker.stamp_tax ?_ ?_ hcr hst hmc ?_
            · have h1 : (1 : ℤ) ≤ min s.quantity pos.quantity := hq
              exact_mod_cast h1
            · exact mul_nonneg hsafe.1 (by linarith)
            · exact hsafe.2
          · intro sp hsp
            rcases mem_setPos _ _ _ _ hsp with rfl | hmem
            · show 0 ≤ pos.quantity - o.quantity
              rw [hoq]
              have hmr := min_le_right s.quantity pos.quantity
              omega
            · exact hpos sp hmem
          · exact ⟨hbcr, hbmc, hbst, hbsl⟩
  · -- HOLD
    have hps : e.process_signal w s bar = (w, e) := by
      simp only [Engine.process_signal, hact]
    rw [hps]
    exact ⟨hcash, hpos, rfl, rfl, rfl, rfl⟩

/-- One engine step preserves the cash/position invariant and the fee
configuration. -/
theorem step_inv (e : Engine) (w : ℕ) (sym : String) (bar : Bar)
    (sig : Option Signal)
    (hcr : 0 ≤ e.broker.commission_rate) (hmc : 0 ≤ e.broker.min_commission)
    (hst : 0 ≤ e.broker.stamp_tax) (hsl1 : e.broker.slippage ≤ 1)
    (hcash : 0 ≤ e.broker.cash)
    (hpos : ∀ sp ∈ e.positions, 0 ≤ sp.2.quantity)
    (hsafe : safePair e.broker.commission_rate e.broker.min_commission
      e.broker.stamp_tax e.broker.slippage (bar, sig)) :
    0 ≤ (e.step w sym bar sig).2.broker.cash ∧
    (∀ sp ∈ (e.step w sym bar sig).2.positions, 0 ≤ sp.2.quantity) ∧
    ratesEq (e.step w sym bar sig).2.broker e.broker := by
  cases sig with
  | none =>
    rcases hlook : lookupPos e.positions sym with _ | p
    · simp only [Engine.step, hlook]
      exact ⟨hcash, hpos, rfl, rfl, rfl, rfl⟩
    · simp only [Engine.step, hlook]
      refine ⟨hcash, ?_, rfl, rfl, rfl, rfl⟩
      intro sp hsp
      rcases mem_setPos _ _ _ _ hsp with rfl | hmem
      · show 0 ≤ p.quantity
        exact hpos _ (lookupPos_mem _ _ _ hlook)
      · exact hpos sp hmem
  | some signal =>
    rcases hlook : lookupPos e.positions sym with _ | p
    · simp only [Engine.step, hlook]
      have h := process_signal_inv e w signal bar hcr hmc hst hsl1 hcash hpos hsafe
      exact ⟨h.1, h.2.1, h.2.2⟩
    · simp only [Engine.step, hlook]
      have he1pos : ∀ sp ∈ setPos e.positions sym (p.update_price bar.close),
          0 ≤ sp.2.quantity := by
        intro sp hsp
        rcases mem_setPos _ _ _ _ hsp with rfl | hmem
        · show 0 ≤ p.quantity
          exact hpos _ (lookupPos_mem _ _ _ hlook)
        · exact hpos sp hmem
      have h := process_signal_inv
        { e with positions := setPos e.positions sym (p.update_price bar.close) }
        w signal bar hcr hmc hst hsl1 hcash he1pos hsafe
      exact ⟨h.1, h.2.1, h.2.2⟩

/-- The whole run loop keeps cash non-negative over a safe trace. -/
theorem runLoop_inv :
    ∀ (pairs : List (Bar × Option Signal)) (e : Engine) (w : ℕ) (sym : String),
    0 ≤ e.broker.commission_rate → 0 ≤ e.broker.min_commission →
    0 ≤ e.broker.stamp_tax → e.broker.slippage ≤ 1 →
    0 ≤ e.broker.cash →
    (∀ sp ∈ e.positions, 0 ≤ sp.2.quantity) →
    (∀ pr ∈ pairs, safePair e.broker.commission_rate e.broker.min_commission
      e.broker.stamp_tax e.broker.slippage pr) →
    0 ≤ (e.runLoop w sym pairs).2.broker.cash := by
  intro pairs
  induction pairs with
  | nil =>
    intro e w sym _ _ _ _ hcash _ _
    simpa [Engine.runLoop] using hcash
  | cons pr rest ih =>
    intro e w sym hcr hmc hst hsl1 hcash hpos hsafe
    obtain ⟨bar, sig⟩ := pr
    obtain ⟨hc2, hp2, hrc, hrm, hrs, hrl⟩ :=
      step_inv e w sym bar sig hcr hmc hst hsl1 hcash hpos
        (hsafe _ (List.mem_cons_self _ _))
    have hsafe' : ∀ pr ∈ rest,
        safePair (e.step w sym bar sig).2.broker.commission_rate
          (e.step w sym bar sig).2.broker.min_commission
          (e.step w sym bar sig).2.broker.stamp_tax
          (e.step w sym bar sig).2.broker.slippage pr := by
      intro pr hpr
      rw [hrc, hrm, hrs, hrl]
      exact hsafe pr (List.mem_cons_of_mem _ hpr)
    have hmain := ih (e.step w sym bar sig).2 (e.step w sym bar sig).1 sym
      (by rw [hrc]; exact hcr) (by rw [hrm]; exact hmc) (by rw [hrs]; exact hst)
      (by rw [hrl]; exact hsl1) hc2 hp2 hsafe'
    exact hmain

/-- C2 counterexample: with capital 1005, zero commission rate, minimum
commission 5 and zero slippage, a BUY signal for 100 shares at price 10
passes the submit-time funds check (cost 1005 ≤ 1005) but is filled at
the bar's close of 20, costing 2005, leaving cash at −1000: the claimed
"cash never negative" invariant of the run loop is false. -/
theorem C2_counterexample :
    ((mkEngine none none none none ⟨1005, 0, 5, 0⟩).runLoop 0 "S"
      [(⟨0, 20⟩, some ⟨.BUY, "S", 10, 100⟩)]).2.broker.cash < 0 := by
  norm_num [Engine.runLoop, Engine.step, Engine.process_signal, Broker.submit_order,
    Broker.fill_order, Broker.calculate_buy_cost, Broker.calculate_commission,
    Order.filled_amount, mkEngine, mkBroker, pyOr, lookupPos, setPos,
    Engine.portfolio_value, Position.add, Position.market_value, max_def, min_def,
    DEFAULT_STAMP_TAX]

/-- C2 amended: the run-loop cash invariant holds under the per-bar side
condition `safePair`: every BUY is filled at a slippage-adjusted close no
higher than the signal price it was funds-checked against, and every
SELL's per-share net proceeds cover the minimum commission.  Under those
conditions (and non-negative fee configuration, slippage ≤ 1,
non-negative starting cash and holdings) every state reachable by the
loop — i.e. after any prefix of the bars — has cash ≥ 0.  Without the
side condition the invariant is false (see the counterexample). -/
theorem C2_cash_nonneg_amended (e : Engine) (w : ℕ) (sym : String)
    (pairs : List (Bar × Option Signal)) (n : ℕ)
    (hcr : 0 ≤ e.broker.commission_rate) (hmc : 0 ≤ e.broker.min_commission)
    (hst : 0 ≤ e.broker.stamp_tax) (hsl1 : e.broker.slippage ≤ 1)
    (hcash : 0 ≤ e.broker.cash)
    (hpos : ∀ sp ∈ e.positions, 0 ≤ sp.2.quantity)
    (hsafe : ∀ pr ∈ pairs, safePair e.broker.commission_rate
      e.broker.min_commission e.broker.stamp_tax e.broker.slippage pr) :
    0 ≤ (e.runLoop w sym (pairs.take n)).2.broker.cash :=
  runLoop_inv (pairs.take n) e w sym hcr hmc hst hsl1 hcash hpos
    fun pr hpr => hsafe pr (List.take_subset n pairs hpr)

/-- C2 witness: a safe one-bar BUY trace from a fresh engine keeps cash
non-negative. -/
theorem C2_cash_nonneg_amended_witness :
    0 ≤ ((mkEngine none none none none ⟨1000, 3 / 10000, 5, 0⟩).runLoop 0 "S"
      ([((⟨0, 10⟩ : Bar), some (⟨.BUY, "S", 10, 50⟩ : Signal))].take 1)).2.broker.cash := by
  apply C2_cash_nonneg_amended
  · norm_num [mkEngine, mkBroker, pyOr]
  · norm_num [mkEngine, mkBroker, pyOr]
  · norm_num [mkEngine, mkBroker, pyOr, DEFAULT_STAMP_TAX]
  · norm_num [mkEngine, mkBroker, pyOr]
  · norm_num [mkEngine, mkBroker, pyOr]
  · intro sp hsp
    simp [mkEngine] at hsp
  · intro pr hpr
    rcases List.mem_singleton.mp hpr with rfl
    simp only [safePair, mkEngine, pyOr, mkBroker]
    norm_num

/-- Shift every generated id by `k`: this is how a run started at world
clock `w + k` relates to the same run started at clock `w`. -/
def shiftOrder (k : ℕ) (o : Order) : Order :=
  { o with order_id := o.order_id + k }

/-- Shift a trade's generated ids by `k`. -/
def shiftTrade (k : ℕ) (t : Trade) : Trade :=
  { t with trade_id := t.trade_id + k, order_id := t.order_id + k }

/-- Shift all recorded ids in a broker by `k`. -/
def shiftBroker (k : ℕ) (b : Broker) : Broker :=
  { b with orders := b.orders.map (shiftOrder k)
           trades := b.trades.map (shiftTrade k) }

/-- Shift all recorded ids in an engine by `k`. -/
def shiftEngine (k : ℕ) (e : Engine) : Engine :=
  { e with broker := shiftBroker k e.broker }

/-- Shift the ids inside a broker error. -/
def shiftErr (k : ℕ) : BrokerErr → BrokerErr
  | .invalidOrder => .invalidOrder
  | .insufficientFunds o => .insufficientFunds (shiftOrder k o)

/-- Shift a submit result. -/
def shiftSubmitRes (k : ℕ) : Except BrokerErr Order → Except BrokerErr Order
  | .error e => .error (shiftErr k e)
  | .ok o => .ok (shiftOrder k o)

/-- Shift a fill result. -/
def shiftFillRes (k : ℕ) :
    Except BrokerErr (Order × Trade) → Except BrokerErr (Order × Trade)
  | .error e => .error (shiftErr k e)
  | .ok (o, t) => .ok (shiftOrder k o, shiftTrade k t)

/-- Submitting from a clock shifted by `k` produces the same run with all
ids shifted by `k`. -/
theorem submit_order_shift (b : Broker) (k w : ℕ) (sym : String)
    (side : OrderSide) (q : ℤ) (p : ℚ) :
    (shiftBroker k b).submit_order (w + k) sym side q p =
      ((b.submit_order w sym side q p).1 + k,
       shiftBroker k (b.submit_order w sym side q p).2.1,
       shiftSubmitRes k (b.submit_order w sym side q p).2.2) := by
  rw [Broker.submit_order, Broker.submit_order]
  simp only [shiftBroker, Broker.calculate_buy_cost, Broker.calculate_commission]
  split_ifs <;>
    simp [shiftSubmitRes, shiftErr, shiftOrder, shiftBroker, List.map_append] <;>
    omega

/-- Replacing by a shifted id inside a shifted order list is the shift of
the original replacement. -/
theorem map_shift_replace (l : List Order) (k oid : ℕ) (x y : Order)
    (hxy : y = shiftOrder k x) :
    ((l.map (shiftOrder k)).map fun o' =>
        if o'.order_id = oid + k then y else o') =
      (l.map fun o' => if o'.order_id = oid then x else o').map (shiftOrder k) := by
  subst hxy
  induction l with
  | nil => rfl
  | cons a t ih =>
    simp only [List.map_cons, List.cons.injEq]
    constructor
    · by_cases h : a.order_id = oid
      · rw [if_pos (by simp [shiftOrder, h]), if_pos h]
      · rw [if_neg (by simp only [shiftOrder]; omega), if_neg h]
    · exact ih


/-- Filling from a shifted clock and a shifted order (at an explicit close
price, as the engine always does) is the shift of the original fill. -/
theorem fill_order_shift (b : Broker) (k w : ℕ) (o : Order) (c : ℚ) :
    (shiftBroker k b).fill_order (w + k) (shiftOrder k o) (some c) =
      ((b.fill_order w o (some c)).1 + k,
       shiftBroker k (b.fill_order w o (some c)).2.1,
       shiftFillRes k (b.fill_order w o (some c)).2.2) := by
  by_cases hs : o.status = OrderStatus.PENDING
  · cases hside : o.side
    · -- BUY
      rw [fill_order_buy_eval (shiftBroker k b) (w + k) (shiftOrder k o) c
          (by simpa [shiftOrder] using hs) (by simpa [shiftOrder] using hside),
        fill_order_buy_eval b w o c hs hside]
      simp only [Prod.mk.injEq, shiftFillRes, shiftOrder, shiftBroker,
        Broker.mk.injEq, Order.mk.injEq, Trade.mk.injEq, Except.ok.injEq,
        List.map_append]
      refine ⟨by omega, ⟨trivial, trivial, trivial, trivial, trivial, trivial,
        ?_, ?_⟩, trivial, ?_⟩
      · exact map_shift_replace b.orders k o.order_id _ _ (by simp [shiftOrder])
      · simp [shiftTrade]
      · simp [shiftTrade]
    · -- SELL
      rw [fill_order_sell_eval (shiftBroker k b) (w + k) (shiftOrder k o) c
          (by simpa [shiftOrder] using hs) (by simpa [shiftOrder] using hside),
        fill_order_sell_eval b w o c hs hside]
      simp only [Prod.mk.injEq, shiftFillRes, shiftOrder, shiftBroker,
        Broker.mk.injEq, Order.mk.injEq, Trade.mk.injEq, Except.ok.injEq,
        List.map_append]
      refine ⟨by omega, ⟨trivial, trivial, trivial, trivial, trivial, trivial,
        ?_, ?_⟩, trivial, ?_⟩
      · exact map_shift_replace b.orders k o.order_id _ _ (by simp [shiftOrder])
      · simp [shiftTrade]
      · simp [shiftTrade]
  · rw [Broker.fill_order, Broker.fill_order,
      if_pos (show (shiftOrder k o).status ≠ OrderStatus.PENDING by
        simpa [shiftOrder] using hs),
      if_pos hs]
    simp [shiftFillRes, shiftErr]

/-- Processing a signal from a shifted clock yields the same engine with
all generated ids shifted. -/
theorem process_signal_shift (e : Engine) (k w : ℕ) (s : Signal) (bar : Bar) :
    (shiftEngine k e).process_signal (w + k) s bar =
      ((e.process_signal w s bar).1 + k,
       shiftEngine k (e.process_signal w s bar).2) := by
  rcases hact : s.action with _ | _ | _
  · -- BUY
    rcases hsub : e.broker.submit_order w s.symbol .BUY s.quantity s.price with
      ⟨w', b', err | o⟩
    · have hsubL : (shiftBroker k e.broker).submit_order (w + k) s.symbol .BUY
          s.quantity s.price = (w' + k, shiftBroker k b', .error (shiftErr k err)) := by
        rw [submit_order_shift, hsub]; rfl
      simp only [Engine.process_signal, hact, shiftEngine, hsubL, hsub]
    · have hsubL : (shiftBroker k e.broker).submit_order (w + k) s.symbol .BUY
          s.quantity s.price = (w' + k, shiftBroker k b', .ok (shiftOrder k o)) := by
        rw [submit_order_shift, hsub]; rfl
      rcases hfill : b'.fill_order w' o (some bar.close) with ⟨w2, b2, err2 | ⟨o2, t2⟩⟩
      · have hfillL : (shiftBroker k b').fill_order (w' + k) (shiftOrder k o)
            (some bar.close) = (w2 + k, shiftBroker k b2, .error (shiftErr k err2)) := by
          rw [fill_order_shift, hfill]; rfl
        simp only [Engine.process_signal, hact, shiftEngine, hsubL, hsub, hfillL, hfill]
      · have hfillL : (shiftBroker k b').fill_order (w' + k) (shiftOrder k o)
            (some bar.close) =
            (w2 + k, shiftBroker k b2, .ok (shiftOrder k o2, shiftTrade k t2)) := by
          rw [fill_order_shift, hfill]; rfl
        simp only [Engine.process_signal, hact, shiftEngine, hsubL, hsub, hfillL, hfill]
        simp [shiftBroker, shiftTrade]
  · -- SELL
    rcases hlook : lookupPos e.positions s.symbol with _ | pos
    · simp only [Engine.process_signal, hact, shiftEngine, hlook]
    · by_cases hz : pos.quantity = 0
      · simp only [Engine.process_signal, hact, shiftEngine, hlook, hz, ite_true, if_true]
      · rcases hsub : e.broker.submit_order w s.symbol .SELL
            (min s.quantity pos.quantity) s.price with ⟨w', b', err | o⟩
        · have hsubL : (shiftBroker k e.broker).submit_order (w + k) s.symbol .SELL
              (min s.quantity pos.quantity) s.price =
              (w' + k, shiftBroker k b', .error (shiftErr k err)) := by
            rw [submit_order_shift, hsub]; rfl
          simp only [Engine.process_signal, hact, shiftEngine, hlook, hz, ite_false,
            if_false, reduceIte, hsubL, hsub]
        · have hsubL : (shiftBroker k e.broker).submit_order (w + k) s.symbol .SELL
              (min s.quantity pos.quantity) s.price =
              (w' + k, shiftBroker k b', .ok (shiftOrder k o)) := by
            rw [submit_order_shift, hsub]; rfl
          rcases hfill : b'.fill_order w' o (some bar.close) with
            ⟨w2, b2, err2 | ⟨o2, t2⟩⟩
          · have hfillL : (shiftBroker k b').fill_order (w' + k) (shiftOrder k o)
                (some bar.close) =
                (w2 + k, shiftBroker k b2, .error (shiftErr k err2)) := by
              rw [fill_order_shift, hfill]; rfl
            simp only [Engine.process_signal, hact, shiftEngine, hlook, hz, ite_false,
              if_false, reduceIte, hsubL, hsub, hfillL, hfill]
          · have hfillL : (shiftBroker k b').fill_order (w' + k) (shiftOrder k o)
                (some bar.close) =
                (w2 + k, shiftBroker k b2, .ok (shiftOrder k o2, shiftTrade k t2)) := by
              rw [fill_order_shift, hfill]; rfl
            rcases hred : pos.reduce t2.quantity with _ | ⟨pos', pnl⟩
            · simp only [Engine.process_signal, hact, shiftEngine, hlook, hz, ite_false,
                if_false, reduceIte, hsubL, hsub, hfillL, hfill, shiftTrade, hred]
            · simp only [Engine.process_signal, hact, shiftEngine, hlook, hz, ite_false,
                if_false, reduceIte, hsubL, hsub, hfillL, hfill, shiftTrade, hred]
  · -- HOLD
    simp only [Engine.process_signal, hact, shiftEngine]

theorem shiftEngine_positions (k : ℕ) (e : Engine) :
    (shiftEngine k e).positions = e.positions := rfl

theorem shiftEngine_set_positions (k : ℕ) (e : Engine)
    (ps : List (String × Position)) :
    { shiftEngine k e with positions := ps } =
      shiftEngine k { e with positions := ps } := rfl

theorem shiftEngine_pv (k : ℕ) (e : Engine) :
    (shiftEngine k e).portfolio_value = e.portfolio_value := rfl

/-- Stepping from a shifted clock yields the same engine with all
generated ids shifted. -/
theorem step_shift (e : Engine) (k w : ℕ) (sym : String) (bar : Bar)
    (sig : Option Signal) :
    (shiftEngine k e).step (w + k) sym bar sig =
      ((e.step w sym bar sig).1 + k, shiftEngine k (e.step w sym bar sig).2) := by
  cases sig with
  | none =>
    rcases hlook : lookupPos e.positions sym with _ | p <;>
      simp [Engine.step, shiftEngine_positions, hlook, shiftEngine_set_positions,
        shiftEngine_pv, Engine.portfolio_value, shiftEngine, shiftBroker]
  | some signal =>
    rcases hlook : lookupPos e.positions sym with _ | p
    · simp only [Engine.step, shiftEngine_positions, hlook, process_signal_shift]
      simp [shiftEngine, shiftBroker, Engine.portfolio_value]
    · simp only [Engine.step, shiftEngine_positions, hlook, shiftEngine_set_positions,
        process_signal_shift]
      simp [shiftEngine, shiftBroker, Engine.portfolio_value]

/-- The whole loop from a shifted clock is the shifted loop. -/
theorem runLoop_shift (pairs : List (Bar × Option Signal)) :
    ∀ (e : Engine) (k w : ℕ) (sym : String),
    (shiftEngine k e).runLoop (w + k) sym pairs =
      ((e.runLoop w sym pairs).1 + k, shiftEngine k (e.runLoop w sym pairs).2) := by
  induction pairs with
  | nil => intro e k w sym; rfl
  | cons pr rest ih =>
    intro e k w sym
    obtain ⟨bar, sig⟩ := pr
    simp only [Engine.runLoop]
    rw [step_shift]
    exact ih (e.step w sym bar sig).2 k (e.step w sym bar sig).1 sym

/-- Processing a signal never changes the engine's stored constructor
parameters. -/
theorem process_signal_params (e : Engine) (w : ℕ) (s : Signal) (bar : Bar) :
    (e.process_signal w s bar).2.initial_capital = e.initial_capital ∧
    (e.process_signal w s bar).2.commission_rate = e.commission_rate ∧
    (e.process_signal w s bar).2.min_commission = e.min_commission ∧
    (e.process_signal w s bar).2.slippage = e.slippage := by
  rcases hact : s.action with _ | _ | _ <;>
    simp only [Engine.process_signal, hact] <;>
    (repeat' split) <;>
    simp

/-- One step never changes the engine's stored constructor parameters. -/
theorem step_params (e : Engine) (w : ℕ) (sym : String) (bar : Bar)
    (sig : Option Signal) :
    (e.step w sym bar sig).2.initial_capital = e.initial_capital ∧
    (e.step w sym bar sig).2.commission_rate = e.commission_rate ∧
    (e.step w sym bar sig).2.min_commission = e.min_commission ∧
    (e.step w sym bar sig).2.slippage = e.slippage := by
  cases sig with
  | none =>
    rcases hlook : lookupPos e.positions sym with _ | p <;>
      simp only [Engine.step, hlook] <;> simp
  | some signal =>
    rcases hlook : lookupPos e.positions sym with _ | p
    · simp only [Engine.step, hlook]
      exact process_signal_params e w signal bar
    · simp only [Engine.step, hlook]
      exact process_signal_params
        { e with positions := setPos e.positions sym (p.update_price bar.close) }
        w signal bar

/-- The run loop never changes the engine's stored constructor
parameters. -/
theorem runLoop_params (pairs : List (Bar × Option Signal)) :
    ∀ (e : Engine) (w : ℕ) (sym : String),
    (e.runLoop w sym pairs).2.initial_capital = e.initial_capital ∧
    (e.runLoop w sym pairs).2.commission_rate = e.commission_rate ∧
    (e.runLoop w sym pairs).2.min_commission = e.min_commission ∧
    (e.runLoop w sym pairs).2.slippage = e.slippage := by
  induction pairs with
  | nil => intro e w sym; exact ⟨rfl, rfl, rfl, rfl⟩
  | cons pr rest ih =>
    intro e w sym
    obtain ⟨bar, sig⟩ := pr
    obtain ⟨h1, h2, h3, h4⟩ := step_params e w sym bar sig
    obtain ⟨g1, g2, g3, g4⟩ :=
      ih (e.step w sym bar sig).2 (e.step w sym bar sig).1 sym
    simp only [Engine.runLoop]
    exact ⟨g1.trans h1, g2.trans h2, g3.trans h3, g4.trans h4⟩

/-- The id-free content of an order record. -/
def stripOrder (o : Order) :=
  (o.symbol, o.side, o.quantity, o.price, o.status, o.filled_quantity,
   o.filled_price, o.commission)

/-- The id-free content of a trade record. -/
def stripTrade (t : Trade) :=
  (t.symbol, t.side, t.quantity, t.price, t.commission)

/-- The id-free content of a backtest result: everything except the
wall-clock/uuid-derived order and trade ids. -/
def stripResult (r : BacktestResult) :=
  (r.symbol, r.initial_capital, r.final_capital, r.portfolio_values, r.returns,
   r.orders.map stripOrder, r.trades.map stripTrade)

/-- The id-free content of a possibly-failed run. -/
def stripRunOutput (r : Except Unit BacktestResult) :=
  Except.map stripResult r

/-- A freshly constructed engine has no recorded ids, so shifting is the
identity on it. -/
theorem shiftEngine_mkEngine (k : ℕ) (ic cr mc sl : Option ℚ) (cfg : Config) :
    shiftEngine k (mkEngine ic cr mc sl cfg) = mkEngine ic cr mc sl cfg := rfl

/-- Resetting the engine after a run restores the freshly-constructed
engine (the run never mutates the stored parameters, and `mkEngine`
builds its broker from exactly those parameters). -/
theorem reset_after_runLoop (ic cr mc sl : Option ℚ) (cfg : Config) (w : ℕ)
    (sym : String) (pairs : List (Bar × Option Signal)) :
    ((mkEngine ic cr mc sl cfg).runLoop w sym pairs).2.reset =
      mkEngine ic cr mc sl cfg := by
  obtain ⟨h1, h2, h3, h4⟩ := runLoop_params pairs (mkEngine ic cr mc sl cfg) w sym
  rw [Engine.reset, h1, h2, h3, h4]
  rfl

/-- The id-free run output does not depend on the starting world clock. -/
theorem run_strip_indep (ic cr mc sl : Option ℚ) (cfg : Config) (w : ℕ)
    (sym : String) (pairs : List (Bar × Option Signal)) :
    stripRunOutput ((mkEngine ic cr mc sl cfg).run w sym pairs).2.2 =
      stripRunOutput ((mkEngine ic cr mc sl cfg).run 0 sym pairs).2.2 := by
  by_cases hp : pairs = []
  · subst hp
    rfl
  · rw [Engine.run, Engine.run, if_neg hp, if_neg hp]
    have hsh := runLoop_shift pairs (mkEngine ic cr mc sl cfg) w 0 sym
    rw [shiftEngine_mkEngine, Nat.zero_add] at hsh
    rw [hsh]
    simp [stripRunOutput, Except.map, stripResult, shiftEngine, shiftBroker,
      List.map_map, stripOrder, stripTrade, shiftOrder, shiftTrade, Function.comp]

/-- C9 amended: `reset()` restores the freshly-constructed engine, and
re-running the identical data and per-bar signals yields a result that is
identical in symbol, capital, the full portfolio-value and return series,
and the full order and trade records up to their generated ids — but NOT
bit-identical, because order/trade ids (and timestamps) are drawn from
the wall clock and uuid4, which do not repeat across runs (see the
counterexample). -/
theorem C9_reset_rerun_amended (ic cr mc sl : Option ℚ) (cfg : Config)
    (w w2 : ℕ) (sym : String) (pairs : List (Bar × Option Signal)) :
    stripRunOutput
        (((((mkEngine ic cr mc sl cfg).run w sym pairs).2.1).reset).run w2 sym
          pairs).2.2 =
      stripRunOutput ((mkEngine ic cr mc sl cfg).run w sym pairs).2.2 := by
  have hreset : (((mkEngine ic cr mc sl cfg).run w sym pairs).2.1).reset =
      mkEngine ic cr mc sl cfg := by
    by_cases hp : pairs = []
    · subst hp
      rfl
    · rw [Engine.run, if_neg hp]
      exact reset_after_runLoop ic cr mc sl cfg w sym pairs
  rw [hreset, run_strip_indep ic cr mc sl cfg w2 sym pairs,
    run_strip_indep ic cr mc sl cfg w sym pairs]

/-- The one-bar BUY trace used to exhibit the id divergence. -/
def wPairs9 : List (Bar × Option Signal) := [(⟨0, 10⟩, some ⟨.BUY, "S", 10, 100⟩)]

/-- First run of the C9 scenario, from world clock 0. -/
def wRun9 : ℕ × Engine × Except Unit BacktestResult :=
  (mkEngine none none none none ⟨100000, 3 / 10000, 5, 0⟩).run 0 "S" wPairs9

/-- C9 counterexample: after `reset()`, re-running the identical data does
NOT yield a bit-identical result: the first run's order carries id 0, the
re-run's order carries id 2, because order ids are generated from the
wall clock and uuid4, which have moved on (`reset` cannot rewind them). -/
theorem C9_counterexample :
    ((wRun9.2.1.reset).run wRun9.1 "S" wPairs9).2.2 ≠ wRun9.2.2 := by
  have h1 : Except.map (fun r => r.orders.map Order.order_id) wRun9.2.2 =
      .ok [0] := by
    norm_num [wRun9, wPairs9, Engine.run, Engine.runLoop, Engine.step,
      Engine.process_signal, Broker.submit_order, Broker.fill_order,
      Broker.calculate_buy_cost, Broker.calculate_commission, Order.filled_amount,
      mkEngine, mkBroker, pyOr, lookupPos, setPos, Engine.portfolio_value,
      Position.add, Position.market_value, pctChange, max_def, min_def,
      Except.map]
  have h2 : Except.map (fun r => r.orders.map Order.order_id)
      ((wRun9.2.1.reset).run wRun9.1 "S" wPairs9).2.2 = .ok [2] := by
    norm_num [wRun9, wPairs9, Engine.run, Engine.runLoop, Engine.step,
      Engine.process_signal, Engine.reset, Broker.submit_order, Broker.fill_order,
      Broker.calculate_buy_cost, Broker.calculate_commission, Order.filled_amount,
      mkEngine, mkBroker, pyOr, lookupPos, setPos, Engine.portfolio_value,
      Position.add, Position.market_value, pctChange, max_def, min_def,
      Except.map]
  intro he
  rw [he, h1] at h2
  simp at h2
